import Mathlib

/-!
Verification of the blogwriter-ai repository.

This file is a shallow embedding, in Lean 4, of the parts of the
repository that the specification claims talk about:

* `src/src.old/editing_agent.py` — the `EditingAgent` class: `apply_edit`,
  `_add_version`, `undo_to_version`, `_generate_changes_summary`,
  `_generate_diff` (the diff machinery of Python `difflib` is embedded
  faithfully for the inputs that arise here);
* `src/src/research_agent.py` — `ResearchAgent.search_articles`,
  `_make_request_with_retry`, `_extract_articles`, `_deduplicate_articles`,
  `_is_similar_string`;
* `src/src/blog_writer_agent.py` — `BlogWriterAgent._create_blog_prompt`;
* `src/backend/db.py` — `BlogStorage.save_blog_post` / `get_blog_post`
  together with an embedding of Python `json.dumps` / `json.loads`;
* `src/backend/database.py` — `DatabaseManager.save_blog_post` /
  `get_blog_post` / `_row_to_blog_post`;
* `src/backend/main.py` — the `versions` table state machine of the
  `/edit`, `/edit/undo/...` and `DELETE /edit/history/...` endpoints.

Machine integers are modelled as `Nat`/`Int`; wall-clock timestamps are
threaded through as explicit `Nat` parameters (the Python code obtains
them from `datetime.now()`); the nondeterministic outside world (LLM
responses, HTTP transports) is passed in as explicit arguments, so that
the theorems quantify over every behaviour of the environment.
-/

namespace BlogWriter

/-! ## Python string primitives

Embeddings of the Python `str` methods used by the repository:
`str.startswith`, `str.lower`, `str.split()` (no separator),
`str.splitlines(keepends)`, the slices `lst[-k:]` and `lst[i:j]`, and
the `in` substring test. Unicode-aware behaviour is modelled on
`List Char` (Lean strings are lists of unicode scalar values).
-/

/-- Embedding of Python `s.startswith(p)`. -/
def pyStartsWith (s p : String) : Bool :=
  List.isPrefixOf p.data s.data

/-- Character-level embedding of Python `str.lower` (ASCII letters; the
repository only lowercases search-result titles and URLs). -/
def pyLowerChar (c : Char) : Char :=
  if 65 ≤ c.toNat ∧ c.toNat ≤ 90 then Char.ofNat (c.toNat + 32) else c

/-- Embedding of Python `s.lower()`. -/
def pyLower (s : String) : String :=
  String.mk (s.data.map pyLowerChar)

/-- Characters on which Python `str.split()` (no argument) splits:
exactly the characters for which Python `str.isspace()` holds. -/
def pyIsSpaceChar (c : Char) : Bool :=
  let n := c.toNat
  (9 ≤ n ∧ n ≤ 13) || n = 32 || (28 ≤ n ∧ n ≤ 31) || n = 0x85 || n = 0xa0 ||
  n = 0x1680 || (0x2000 ≤ n ∧ n ≤ 0x200a) || n = 0x2028 || n = 0x2029 ||
  n = 0x202f || n = 0x205f || n = 0x3000

/-- Word-splitting core of Python `str.split()`: `cur` is the word
collected so far; empty words are never emitted. -/
def pySplitGo : List Char → List Char → List (List Char)
  | cur, [] => if cur.isEmpty then [] else [cur]
  | cur, c :: r =>
    if pyIsSpaceChar c then
      if cur.isEmpty then pySplitGo [] r else cur :: pySplitGo [] r
    else
      pySplitGo (cur ++ [c]) r

/-- Embedding of Python `s.split()` (split on runs of whitespace,
dropping empty strings). -/
def pySplit (s : String) : List String :=
  (pySplitGo [] s.data).map String.mk

/-- Line-boundary characters of Python `str.splitlines` (other than the
two-character boundary `\r\n`, handled separately). -/
def pyIsLineBreakChar (c : Char) : Bool :=
  let n := c.toNat
  n = 10 || n = 13 || n = 11 || n = 12 || n = 28 || n = 29 || n = 30 ||
  n = 0x85 || n = 0x2028 || n = 0x2029

/-- Core of Python `s.splitlines(keepends)`: `cur` is the line collected
so far. A trailing line is emitted only when nonempty. -/
def pySplitlinesGo (keepends : Bool) : List Char → List Char → List (List Char)
  | cur, [] => if cur.isEmpty then [] else [cur]
  | cur, '\r' :: '\n' :: r =>
    (cur ++ if keepends then ['\r', '\n'] else []) :: pySplitlinesGo keepends [] r
  | cur, c :: r =>
    if pyIsLineBreakChar c then
      (cur ++ if keepends then [c] else []) :: pySplitlinesGo keepends [] r
    else
      pySplitlinesGo keepends (cur ++ [c]) r

/-- Embedding of Python `s.splitlines(keepends)`. -/
def pySplitlines (keepends : Bool) (s : String) : List String :=
  (pySplitlinesGo keepends [] s.data).map String.mk

/-- Embedding of the Python slice `lst[-k:]` for a nonnegative `k`.
Note that for `k = 0` the index `-0` is `0`, so `lst[-0:]` is the whole
list — this quirk is load-bearing for the version-history bound. -/
def pySliceLast {α : Type} (l : List α) (k : Nat) : List α :=
  if k = 0 then l else l.drop (l.length - k)

/-- Embedding of the Python slice `lst[i:j]` for nonnegative indices. -/
def pySlice {α : Type} (l : List α) (i j : Nat) : List α :=
  (l.take j).drop i

/-- Boolean infix test on lists (`needle` occurs contiguously in `hay`). -/
def listInfixOf {α : Type} [DecidableEq α] : List α → List α → Bool
  | needle, [] => needle.isEmpty
  | needle, c :: rest => List.isPrefixOf needle (c :: rest) || listInfixOf needle rest

/-- Embedding of the Python substring test `needle in hay`. -/
def pyInStr (needle hay : String) : Bool :=
  listInfixOf needle.data hay.data

/-! ## Embedding of Python `difflib`

The editing agent computes its diffs with
`difflib.unified_diff(...)`, backed by `difflib.SequenceMatcher`
(constructed with `isjunk=None`). The definitions below embed CPython's
implementation on line lists. With `isjunk=None` the junk set is empty,
so the two junk-extension loops of `find_longest_match` never run and
are omitted; the autojunk "popular element" filtering (active only for
sequences of at least 200 lines) is embedded in `chainB`.
-/

/-- Association-list update used to build `b2j`: append index `i` to the
bucket of `elt` (Python `b2j.setdefault(elt, []).append(i)`). -/
def b2jAdd : List (String × List Nat) → String → Nat → List (String × List Nat)
  | [], elt, i => [(elt, [i])]
  | (k, v) :: rest, elt, i =>
    if k = elt then (k, v ++ [i]) :: rest else (k, v) :: b2jAdd rest elt i

/-- Embedding of `SequenceMatcher.__chain_b`: map each line of `b` to its
ascending list of indices, then drop "popular" entries when autojunk
applies (`len(b) >= 200`). -/
def chainB (b : List String) : List (String × List Nat) :=
  let m := (b.enum).foldl (fun acc p => b2jAdd acc p.2 p.1) []
  if 200 ≤ b.length then
    let ntest := b.length / 100 + 1
    m.filter (fun p => ¬ ntest < p.2.length)
  else m

/-- Bucket lookup `b2j.get(elt, [])`. -/
def b2jGet (m : List (String × List Nat)) (elt : String) : List Nat :=
  ((m.find? (fun p => p.1 = elt)).map Prod.snd).getD []

/-- State of the inner loop of `find_longest_match`:
best match so far and the `newj2len` table under construction. -/
structure FlmInner where
  besti : Nat
  bestj : Nat
  bestsize : Nat
  newj2len : List (Nat × Nat)
deriving Repr

/-- Lookup `j2len.get(j-1, 0)`, with Python's `-1` key (when `j = 0`)
never present, hence the default `0`. -/
def j2lenGet (m : List (Nat × Nat)) (j : Nat) : Nat :=
  if j = 0 then 0 else ((m.find? (fun p => p.1 = j - 1)).map Prod.snd).getD 0

/-- Inner loop of `find_longest_match` over the candidate `j` indices of
one row `i`: `continue` on `j < blo`, `break` on `j >= bhi`. -/
def flmInner (i blo bhi : Nat) (j2len : List (Nat × Nat)) :
    List Nat → FlmInner → FlmInner
  | [], st => st
  | j :: js, st =>
    if j < blo then flmInner i blo bhi j2len js st
    else if bhi ≤ j then st
    else
      let k := j2lenGet j2len j + 1
      let st :=
        { st with
          newj2len := (j, k) :: st.newj2len
          besti := if st.bestsize < k then i + 1 - k else st.besti
          bestj := if st.bestsize < k then j + 1 - k else st.bestj
          bestsize := if st.bestsize < k then k else st.bestsize }
      flmInner i blo bhi j2len js st

/-- Outer loop of `find_longest_match` over `i` in `range(alo, ahi)`. -/
def flmOuter (a : List String) (b2j : List (String × List Nat))
    (blo bhi : Nat) : List Nat → (Nat × Nat × Nat) → List (Nat × Nat) →
    (Nat × Nat × Nat)
  | [], best, _ => best
  | i :: is, (besti, bestj, bestsize), j2len =>
    let st := flmInner i blo bhi j2len (b2jGet b2j (a.getD i ""))
      ⟨besti, bestj, bestsize, []⟩
    flmOuter a b2j blo bhi is (st.besti, st.bestj, st.bestsize) st.newj2len

/-- Number of steps the front-extension `while` loop of
`find_longest_match` runs (`isbjunk` is constantly false here, the junk
set being empty). -/
def flmExtFront (a b : List String) (alo blo : Nat) :
    Nat → Nat → Nat → Nat
  | _, _, 0 => 0
  | besti, bestj, fuel + 1 =>
    if alo < besti ∧ blo < bestj ∧
        a.getD (besti - 1) "" = b.getD (bestj - 1) "" then
      flmExtFront a b alo blo (besti - 1) (bestj - 1) fuel + 1
    else 0

/-- Number of steps the back-extension `while` loop runs. -/
def flmExtBack (a b : List String) (ahi bhi : Nat) :
    Nat → Nat → Nat → Nat
  | _, _, 0 => 0
  | iend, jend, fuel + 1 =>
    if iend < ahi ∧ jend < bhi ∧ a.getD iend "" = b.getD jend "" then
      flmExtBack a b ahi bhi (iend + 1) (jend + 1) fuel + 1
    else 0

/-- Embedding of `SequenceMatcher.find_longest_match(alo, ahi, blo, bhi)`
(no junk: `isjunk=None`, so the junk-extension loops are no-ops). -/
def findLongestMatch (a b : List String) (b2j : List (String × List Nat))
    (alo ahi blo bhi : Nat) : Nat × Nat × Nat :=
  let best := flmOuter a b2j blo bhi
    ((List.range ahi).drop alo) (alo, blo, 0) []
  let (besti, bestj, bestsize) := best
  let d := flmExtFront a b alo blo besti bestj besti
  let besti := besti - d
  let bestj := bestj - d
  let bestsize := bestsize + d
  let e := flmExtBack a b ahi bhi (besti + bestsize) (bestj + bestsize) ahi
  (besti, bestj, bestsize + e)

/-- Recursive collection of matching blocks, in sorted order; equivalent
to CPython's queue-plus-final-sort formulation because the blocks of the
left and right subproblems lie in disjoint index ranges. The fuel bounds
the recursion depth; `(ahi - alo) + (bhi - blo)` always suffices since
each level removes a nonempty matching block from the span. -/
def matchingBlocksRec (a b : List String) (b2j : List (String × List Nat)) :
    Nat → Nat → Nat → Nat → Nat → List (Nat × Nat × Nat)
  | 0, _, _, _, _ => []
  | fuel + 1, alo, ahi, blo, bhi =>
    let (i, j, k) := findLongestMatch a b b2j alo ahi blo bhi
    if k = 0 then []
    else
      matchingBlocksRec a b b2j fuel alo i blo j ++ [(i, j, k)] ++
        matchingBlocksRec a b b2j fuel (i + k) ahi (j + k) bhi

/-- Merging loop of `get_matching_blocks`: adjacent blocks are fused. -/
def mergeAdjacent : (Nat × Nat × Nat) → List (Nat × Nat × Nat) →
    List (Nat × Nat × Nat)
  | (i1, j1, k1), [] => if k1 = 0 then [] else [(i1, j1, k1)]
  | (i1, j1, k1), (i2, j2, k2) :: rest =>
    if i1 + k1 = i2 ∧ j1 + k1 = j2 then mergeAdjacent (i1, j1, k1 + k2) rest
    else
      (if k1 = 0 then [] else [(i1, j1, k1)]) ++ mergeAdjacent (i2, j2, k2) rest

/-- Embedding of `SequenceMatcher.get_matching_blocks()`, including the
final `(la, lb, 0)` sentinel. -/
def getMatchingBlocks (a b : List String) : List (Nat × Nat × Nat) :=
  let blocks := matchingBlocksRec a b (chainB b)
    (a.length + b.length + 1) 0 a.length 0 b.length
  mergeAdjacent (0, 0, 0) blocks ++ [(a.length, b.length, 0)]

/-- Opcode tags of `SequenceMatcher.get_opcodes()`. -/
inductive Tag
  | replace
  | delete
  | insert
  | equal
deriving Repr, DecidableEq

/-- One `(tag, i1, i2, j1, j2)` opcode. -/
structure Opcode where
  tag : Tag
  i1 : Nat
  i2 : Nat
  j1 : Nat
  j2 : Nat
deriving Repr, DecidableEq

instance : Inhabited Opcode := ⟨⟨Tag.equal, 0, 0, 0, 0⟩⟩

/-- Loop of `get_opcodes()` over the matching blocks. -/
def opcodesGo : Nat → Nat → List (Nat × Nat × Nat) → List Opcode
  | _, _, [] => []
  | i, j, (ai, bj, size) :: rest =>
    (if i < ai ∧ j < bj then [⟨Tag.replace, i, ai, j, bj⟩]
     else if i < ai then [⟨Tag.delete, i, ai, j, bj⟩]
     else if j < bj then [⟨Tag.insert, i, ai, j, bj⟩]
     else []) ++
    (if size ≠ 0 then [⟨Tag.equal, ai, ai + size, bj, bj + size⟩] else []) ++
    opcodesGo (ai + size) (bj + size) rest

/-- Embedding of `SequenceMatcher.get_opcodes()`. -/
def getOpcodes (a b : List String) : List Opcode :=
  opcodesGo 0 0 (getMatchingBlocks a b)

/-- Grouping loop of `get_grouped_opcodes(n)`: a large `equal` opcode
closes the current hunk, keeping `n` lines of context on each side. -/
def groupedGo (n : Nat) : List Opcode → List Opcode → List (List Opcode)
  | [], group =>
    if group.isEmpty ∨ (group.length = 1 ∧ (group.headD default).tag = Tag.equal)
    then [] else [group]
  | c :: rest, group =>
    if c.tag = Tag.equal ∧ n + n < c.i2 - c.i1 then
      (group ++ [⟨Tag.equal, c.i1, min c.i2 (c.i1 + n),
                  c.j1, min c.j2 (c.j1 + n)⟩]) ::
        groupedGo n rest
          [⟨Tag.equal, max c.i1 (c.i2 - n), c.i2, max c.j1 (c.j2 - n), c.j2⟩]
    else groupedGo n rest (group ++ [c])

/-- Embedding of `SequenceMatcher.get_grouped_opcodes(n)`. -/
def getGroupedOpcodes (a b : List String) (n : Nat) : List (List Opcode) :=
  let codes := getOpcodes a b
  let codes := if codes.isEmpty then [⟨Tag.equal, 0, 1, 0, 1⟩] else codes
  let codes :=
    match codes with
    | c :: rest =>
      (if c.tag = Tag.equal then
        (⟨Tag.equal, max c.i1 (c.i2 - n), c.i2, max c.j1 (c.j2 - n), c.j2⟩ : Opcode)
       else c) :: rest
    | [] => []
  let codes :=
    match codes.getLast? with
    | some c =>
      if c.tag = Tag.equal then
        codes.dropLast ++
          [(⟨Tag.equal, c.i1, min c.i2 (c.i1 + n), c.j1, min c.j2 (c.j1 + n)⟩ : Opcode)]
      else codes
    | none => codes
  groupedGo n codes []

/-- Embedding of `difflib._format_range_unified`. -/
def formatRangeUnified (start stop : Nat) : String :=
  let beginning := start + 1
  let length := stop - start
  if length = 1 then toString beginning
  else
    toString (if length = 0 then beginning - 1 else beginning) ++ "," ++
      toString length

/-- Diff body lines contributed by one opcode in `unified_diff`. -/
def opLines (a b : List String) (c : Opcode) : List String :=
  match c.tag with
  | Tag.equal => (pySlice a c.i1 c.i2).map (fun l => " " ++ l)
  | Tag.delete => (pySlice a c.i1 c.i2).map (fun l => "-" ++ l)
  | Tag.insert => (pySlice b c.j1 c.j2).map (fun l => "+" ++ l)
  | Tag.replace =>
    (pySlice a c.i1 c.i2).map (fun l => "-" ++ l) ++
      (pySlice b c.j1 c.j2).map (fun l => "+" ++ l)

/-- Lines of one hunk of `unified_diff`: the `@@` header followed by the
opcode lines. -/
def hunkLines (a b : List String) (lineterm : String) (g : List Opcode) :
    List String :=
  let first := g.headD default
  let last := g.getLastD default
  ("@@ -" ++ formatRangeUnified first.i1 last.i2 ++ " +" ++
      formatRangeUnified first.j1 last.j2 ++ " @@" ++ lineterm) ::
    g.flatMap (opLines a b)

/-- Embedding of `difflib.unified_diff(a, b, fromfile, tofile,
fromfiledate, tofiledate, n, lineterm)`, as the list of yielded lines.
The two file headers are emitted once, before the first hunk. -/
def unifiedDiff (a b : List String)
    (fromfile tofile fromfiledate tofiledate : String) (n : Nat)
    (lineterm : String) : List String :=
  match getGroupedOpcodes a b n with
  | [] => []
  | g :: gs =>
    let fromdate := if fromfiledate ≠ "" then "\t" ++ fromfiledate else ""
    let todate := if tofiledate ≠ "" then "\t" ++ tofiledate else ""
    ("--- " ++ fromfile ++ fromdate ++ lineterm) ::
      ("+++ " ++ tofile ++ todate ++ lineterm) ::
        (g :: gs).flatMap (hunkLines a b lineterm)

/-! ## Editing agent (`src/src.old/editing_agent.py`)

The `EditingAgent` keeps an in-memory `version_history` bounded by
`max_versions` (default 10). `apply_edit` calls the LLM; the outcome of
that call is passed in as an `Except String String` value (`.error e`
models the provider call raising an exception `e`, `.ok t` models it
returning text `t`). Timestamps (`datetime.now()`) are threaded through
as a `Nat` parameter `now`; two calls within the same second of wall
clock receive equal `now` values, which is what makes the
`strftime`-based version ids collide. The `diff_html` field produced by
`difflib.HtmlDiff().make_file` is omitted from the embedding: no claim
refers to it and it does not influence any other field or the state. -/

/-- A single quote character, used inside generated message strings. -/
def squote : String := String.singleton (Char.ofNat 39)

/-- Embedding of the `EditVersion` dataclass. -/
structure EditVersion where
  version_id : String
  content : String
  instruction : String
  timestamp : Nat
  parent_version : Option String
deriving Repr, DecidableEq

instance : Inhabited EditVersion := ⟨⟨"", "", "", 0, none⟩⟩

/-- Embedding of the `EditResult` dataclass (without the `diff_html`
field, see the section comment). -/
structure EditResult where
  original_content : String
  edited_content : String
  instruction : String
  changes_summary : String
  diff_text : String
  timestamp : Nat
  model_used : String
  provider_used : String
  success : Bool
  error_message : Option String
deriving Repr, DecidableEq

/-- Mutable state of an `EditingAgent` (provider/model are fixed at
construction; `version_history` is the mutable list). -/
structure EditingAgentState where
  llm_provider : String
  model : String
  max_versions : Nat
  version_history : List EditVersion
deriving Repr, DecidableEq

/-- Counts computed by `_generate_changes_summary`: the `+`/`-` line
counts over the `n=0` unified diff and the word-count numbers. -/
structure ChangesCounts where
  additions : Nat
  deletions : Nat
  original_words : Nat
  edited_words : Nat
  word_change : Int
deriving Repr, DecidableEq

/-- The diff list and counts of `_generate_changes_summary`:
`diff = list(difflib.unified_diff(original_lines, edited_lines, n=0))`,
`additions`/`deletions` count lines starting with `+`/`-` but not with
`+++`/`---`, and `word_change = edited_words - original_words`. -/
def changesCounts (original edited : String) : ChangesCounts :=
  let original_lines := pySplitlines false original
  let edited_lines := pySplitlines false edited
  let diff := unifiedDiff original_lines edited_lines "" "" "" "" 0 "\n"
  let additions := diff.countP
    (fun line => pyStartsWith line "+" && !(pyStartsWith line "+++"))
  let deletions := diff.countP
    (fun line => pyStartsWith line "-" && !(pyStartsWith line "---"))
  let original_words := (pySplit original).length
  let edited_words := (pySplit edited).length
  { additions := additions
    deletions := deletions
    original_words := original_words
    edited_words := edited_words
    word_change := (edited_words : Int) - (original_words : Int) }

/-- Python `{:+d}` formatting of the signed word-count change. -/
def formatSigned (i : Int) : String :=
  if 0 ≤ i then "+" ++ toString i else toString i

/-- Embedding of `EditingAgent._generate_changes_summary`. -/
def generateChangesSummary (original edited instruction : String) : String :=
  let c := changesCounts original edited
  "Applied instruction: " ++ squote ++ instruction ++ squote ++ "\n" ++
    "Lines added: " ++ toString c.additions ++ ", Lines removed: " ++
    toString c.deletions ++ "\n" ++
    "Word count change: " ++ formatSigned c.word_change ++ " words (" ++
    toString c.original_words ++ " → " ++ toString c.edited_words ++ ")"

/-- Formulated from the spec, for comparison with `changesCounts`: the
number of added lines of the editor's `n = 0` unified diff — the lines
beginning with `+` other than the one `+++ ` file header (with the
default empty `tofile`, that header line is exactly `"+++ \n"`). -/
def specAddedCount (original edited : String) : Nat :=
  (unifiedDiff (pySplitlines false original) (pySplitlines false edited)
    "" "" "" "" 0 "\n").countP
    (fun line => pyStartsWith line "+" && !(line == "+++ \n"))

/-- Formulated from the spec: the number of removed lines of the
editor's `n = 0` unified diff — the lines beginning with `-` other
than the `"--- \n"` file header. -/
def specRemovedCount (original edited : String) : Nat :=
  (unifiedDiff (pySplitlines false original) (pySplitlines false edited)
    "" "" "" "" 0 "\n").countP
    (fun line => pyStartsWith line "-" && !(line == "--- \n"))

/-- Text half of `EditingAgent._generate_diff`: the joined
`unified_diff` over `splitlines(keepends=True)` with three context
lines. -/
def generateDiffText (original edited : String) : String :=
  String.join (unifiedDiff (pySplitlines true original)
    (pySplitlines true edited) "original" "edited" "" "" 3 "\n")

/-- Version number used by `_add_version` for the next version id:
`len(self.version_history) + 1`, computed on the possibly already
trimmed history. -/
def addVersionNumber (s : EditingAgentState) : Nat :=
  s.version_history.length + 1

/-- Embedding of `EditingAgent._add_version(content, instruction)`,
returning the new state together with the `EditVersion` appended. The
version id is `f"v{len+1}_{timestamp}"`, the parent is the id of the
last entry, and the history is trimmed to `version_history[-max_versions:]`
whenever its length exceeds `max_versions`. -/
def addVersion (s : EditingAgentState) (content instruction : String)
    (now : Nat) : EditingAgentState × EditVersion :=
  let version_id := "v" ++ toString (addVersionNumber s) ++ "_" ++ toString now
  let parent_version := (s.version_history.getLast?).map EditVersion.version_id
  let version : EditVersion :=
    { version_id := version_id
      content := content
      instruction := instruction
      timestamp := now
      parent_version := parent_version }
  let history := s.version_history ++ [version]
  let history :=
    if s.max_versions < history.length then pySliceLast history s.max_versions
    else history
  ({ s with version_history := history }, version)

/-- Loop of `undo_to_version`: return the content of the first version
whose id matches. -/
def undoFind : List EditVersion → String → Option String
  | [], _ => none
  | v :: rest, version_id =>
    if v.version_id = version_id then some v.content else undoFind rest version_id

/-- Embedding of `EditingAgent.undo_to_version(version_id)`: a read-only
scan of the history; the state component records that the method never
assigns to `self`. -/
def undoToVersion (s : EditingAgentState) (version_id : String) :
    Option String × EditingAgentState :=
  (undoFind s.version_history version_id, s)

/-- Embedding of `EditingAgent.get_latest_version()`. -/
def getLatestVersion (s : EditingAgentState) : Option String :=
  (s.version_history.getLast?).map EditVersion.content

/-- Embedding of `EditingAgent.apply_edit`. The `llm` argument is the
outcome of `_generate_edit` (the provider call): on `.error e` control
jumps to the `except` block, which returns the original content with
`success=False` and leaves the state untouched; on `.ok edited` the
diff, the summary and (when `track_version` is set) the new history
entry are produced. -/
def applyEdit (s : EditingAgentState) (markdown_text instruction : String)
    (track_version : Bool) (now : Nat) (llm : Except String String) :
    EditResult × EditingAgentState :=
  match llm with
  | Except.ok edited_content =>
    let diff_text := generateDiffText markdown_text edited_content
    let changes_summary :=
      generateChangesSummary markdown_text edited_content instruction
    let result : EditResult :=
      { original_content := markdown_text
        edited_content := edited_content
        instruction := instruction
        changes_summary := changes_summary
        diff_text := diff_text
        timestamp := now
        model_used := s.model
        provider_used := s.llm_provider
        success := true
        error_message := none }
    let s := if track_version then (addVersion s edited_content instruction now).1 else s
    (result, s)
  | Except.error e =>
    ({ original_content := markdown_text
       edited_content := markdown_text
       instruction := instruction
       changes_summary := "Edit failed"
       diff_text := ""
       timestamp := now
       model_used := s.model
       provider_used := s.llm_provider
       success := false
       error_message := some e }, s)

/-- Fold a sequence of `_add_version` calls
(`(content, instruction, now)` triples) over a state. -/
def runAdds (s : EditingAgentState) : List (String × String × Nat) →
    EditingAgentState
  | [] => s
  | (c, i, t) :: rest => runAdds (addVersion s c i t).1 rest

/-- Trace of the `EditVersion` records created by a sequence of
`_add_version` calls. -/
def addedVersions (s : EditingAgentState) : List (String × String × Nat) →
    List EditVersion
  | [] => []
  | (c, i, t) :: rest =>
    let (s2, v) := addVersion s c i t
    v :: addedVersions s2 rest

/-- Trace of the numeric components `len(history)+1` baked into the ids
of the versions created by a sequence of `_add_version` calls. -/
def addedNumbers (s : EditingAgentState) : List (String × String × Nat) →
    List Nat
  | [] => []
  | (c, i, t) :: rest =>
    addVersionNumber s :: addedNumbers (addVersion s c i t).1 rest

/-! ## Research agent (`src/src/research_agent.py`)

`search_articles` builds the request parameters (topic, count capped at
20, country, safe-search and the freshness window computed from
`days_back`) and hands them to the transport. The parameters influence
only what the Brave endpoint answers, and the theorems quantify over
every transport behaviour, so the parameter record itself is absorbed
into the `transport : Nat → Attempt` argument, which gives the outcome
of the n-th attempt of `_make_request_with_retry`. -/

/-- An article record extracted from the search response. -/
structure Article where
  title : String
  url : String
  snippet : String
deriving Repr, DecidableEq

/-- One raw entry of `data['web']['results']` (fields may be absent,
mirroring `result.get(...)`). -/
structure RawResult where
  title : Option String
  url : Option String
  description : Option String
deriving Repr, DecidableEq

/-- A parsed search response: `web` is `none` when `'web' not in data`
or `'results' not in data['web']`. -/
structure SearchData where
  web : Option (List RawResult)
deriving Repr, DecidableEq

/-- Loop of `_extract_articles`: keep only results with a nonempty URL,
defaulting the missing fields exactly as the code does. -/
def extractGo : List RawResult → List Article
  | [] => []
  | r :: rest =>
    let article : Article :=
      { title := r.title.getD "No title available"
        url := r.url.getD ""
        snippet := r.description.getD "No description available" }
    if article.url ≠ "" then article :: extractGo rest else extractGo rest

/-- Embedding of `ResearchAgent._extract_articles(data)`. -/
def extractArticles (data : SearchData) : List Article :=
  match data.web with
  | none => []
  | some results => extractGo results

/-- Embedding of `ResearchAgent._is_similar_string(s1, s2)` with the
default threshold `0.8`: Jaccard similarity of the lowercased word sets
is at least `0.8`. The float comparison `len(inter)/len(union) >= 0.8`
agrees with the exact rational comparison `5*|inter| >= 4*|union|` for
every set size the code can encounter (a double rounding error of about
`1e-16` cannot bridge the minimal rational gap `1/(5*|union|)`). -/
def isSimilarString (s1 s2 : String) : Bool :=
  let words1 := (pySplit (pyLower s1)).toFinset
  let words2 := (pySplit (pyLower s2)).toFinset
  if words1 = ∅ ∨ words2 = ∅ then false
  else 4 * (words1 ∪ words2).card ≤ 5 * (words1 ∩ words2).card

/-- Loop of `_deduplicate_articles`: an article is dropped when its
lowercased URL was already seen or its lowercased title is similar to a
seen title; both `seen` collections grow only when an article is kept. -/
def deduplicateGo : List Article → List String → List String → List Article
  | [], _, _ => []
  | article :: rest, seen_urls, seen_titles =>
    let url := pyLower article.url
    let title := pyLower article.title
    if url ∈ seen_urls then deduplicateGo rest seen_urls seen_titles
    else if seen_titles.any (fun seen_title => isSimilarString title seen_title)
    then deduplicateGo rest seen_urls seen_titles
    else article :: deduplicateGo rest (seen_urls ++ [url]) (seen_titles ++ [title])

/-- Embedding of `ResearchAgent._deduplicate_articles(articles)`. -/
def deduplicateArticles (articles : List Article) : List Article :=
  deduplicateGo articles [] []

/-- Outcome of one attempt of `_make_request_with_retry`:
a 429 response (with the optional raw `retry-after` header value), a
`requests` timeout, any other `RequestException` (including
`raise_for_status`) with its message, or a parsed JSON response. -/
inductive Attempt
  | rateLimited (retryAfterHeader : Option String)
  | timeout
  | reqError (msg : String)
  | success (data : SearchData)
deriving Repr, DecidableEq

/-- Whether an attempt outcome is a successful response. -/
def attemptIsSuccess : Attempt → Bool
  | Attempt.success _ => true
  | _ => false

/-- Whether Python `int(s)` succeeds on a string (optional surrounding
whitespace and sign followed by digits; digit-group underscores are not
modelled — the value is only slept on, never used). -/
def pyIntParses (s : String) : Bool :=
  let t := (((s.data.dropWhile pyIsSpaceChar).reverse.dropWhile
    pyIsSpaceChar).reverse)
  match t with
  | '+' :: ds => !ds.isEmpty && ds.all Char.isDigit
  | '-' :: ds => !ds.isEmpty && ds.all Char.isDigit
  | ds => !ds.isEmpty && ds.all Char.isDigit

/-- Retry loop of `_make_request_with_retry` (`for attempt in
range(max_retries + 1)`), with the fuel equal to the remaining loop
iterations. `Except.error` models an exception escaping the method (the
`int(...)` of a malformed `retry-after` header — the only statement in
the loop body outside the caught exception classes); `Except.ok none`
models `return None`. -/
def makeRequestGo (transport : Nat → Attempt) (max_retries : Nat) :
    Nat → Nat → Except String (Option SearchData)
  | _, 0 => Except.ok none
  | attempt, fuel + 1 =>
    match transport attempt with
    | Attempt.rateLimited header =>
      match header with
      | some s =>
        if pyIntParses s then
          if attempt < max_retries then
            makeRequestGo transport max_retries (attempt + 1) fuel
          else Except.ok none
        else Except.error "ValueError"
      | none =>
        if attempt < max_retries then
          makeRequestGo transport max_retries (attempt + 1) fuel
        else Except.ok none
    | Attempt.timeout =>
      if attempt < max_retries then
        makeRequestGo transport max_retries (attempt + 1) fuel
      else Except.ok none
    | Attempt.reqError msg =>
      if attempt < max_retries ∧ pyInStr "429" msg = true then
        makeRequestGo transport max_retries (attempt + 1) fuel
      else Except.ok none
    | Attempt.success data => Except.ok (some data)

/-- Embedding of `ResearchAgent._make_request_with_retry(params)`. -/
def makeRequestWithRetry (transport : Nat → Attempt) (max_retries : Nat) :
    Except String (Option SearchData) :=
  makeRequestGo transport max_retries 0 (max_retries + 1)

/-- Embedding of `ResearchAgent.search_articles(topic, count, ...)`:
the whole body runs inside `try: ... except Exception: return []`, so a
propagating exception also yields `[]`. Deduplication happens before
the final truncation `articles[:count]`. -/
def searchArticles (transport : Nat → Attempt) (max_retries : Nat)
    (count : Nat) : List Article :=
  match makeRequestWithRetry transport max_retries with
  | Except.error _ => []
  | Except.ok none => []
  | Except.ok (some data) =>
    let articles := extractArticles data
    let articles := deduplicateArticles articles
    articles.take count

/-! ## Blog writer prompt (`src/src/blog_writer_agent.py`)

`_create_blog_prompt(topic, research_results)` formats the top
`research_results[:5]` sources (the code comment says "Limit to top 5
sources") into numbered snippet blocks and splices them, together with
the topic, into a fixed prompt template. -/

/-- One research result handed to the writer (`source.get(...)` fields
may be absent). -/
structure ResearchSource where
  title : Option String
  url : Option String
  snippet : Option String
deriving Repr, DecidableEq

/-- One formatted snippet block of the digest
(`f"{i}. **{title}**\n   URL: {url}\n   Summary: {snippet}\n"`). -/
def sourceInfoLine (i : Nat) (source : ResearchSource) : String :=
  toString i ++ ". **" ++ source.title.getD "No title" ++ "**\n" ++
    "   URL: " ++ source.url.getD "No URL" ++ "\n" ++
    "   Summary: " ++ source.snippet.getD "No summary" ++ "\n"

/-- The snippet digest of `_create_blog_prompt`:
`enumerate(research_results[:5], 1)` formatted blocks. -/
def sourcesInfo (research_results : List ResearchSource) : List String :=
  (research_results.take 5).enum.map (fun p => sourceInfoLine (p.1 + 1) p.2)

/-- Template text of the blog prompt before the topic. -/
def promptPrefix : String :=
  "You are an expert technical writer creating a comprehensive blog post. Your task is to write a well-structured, informative, and engaging ~1000-word blog post in Markdown format.\n\nTOPIC: "

/-- Template text between the topic and the sources digest. -/
def promptMiddle : String := "\n\nRESEARCH SOURCES:\n"

/-- Template text of the blog prompt after the sources digest. -/
def promptSuffix : String :=
  "\n\nREQUIREMENTS:\n1. **Structure**: Use proper Markdown formatting with:\n   - Main title (# Title)\n   - Section headings (## Section)\n   - Subsections (### Subsection) as needed\n   - Bullet points and numbered lists where appropriate\n   - Bold and italic text for emphasis\n\n2. **Content Guidelines**:\n   - Write approximately 1000 words\n   - Create an engaging introduction that hooks the reader\n   - Develop 4-6 main sections with substantial content\n   - Include specific examples and practical insights\n   - Write a compelling conclusion with key takeaways\n   - Maintain a professional yet accessible tone\n\n3. **Source Integration**:\n   - Naturally incorporate 2-3 of the provided sources into your content\n   - Reference sources by embedding links in relevant sentences\n   - Don" ++
  squote ++
  "t just list sources - weave them into the narrative\n   - Use phrases like \"According to [source]\" or \"Recent research shows\"\n\n4. **References Section**:\n   - End with a \"## References\" section\n   - List all sources you referenced in the content\n   - Format as: \"- [Title](URL) - Brief description\"\n\n5. **Image Placeholders**:\n   - Include 2-3 image placeholder comments where relevant\n   - Format as: `<!-- IMAGE: descriptive keyword for image search -->`\n   - Place them strategically throughout the content\n\n6. **SEO Optimization**:\n   - Use the main topic keyword naturally throughout\n   - Include related keywords and synonyms\n   - Create descriptive headings\n\nWrite the complete blog post now, ensuring it" ++
  squote ++
  "s informative, well-researched, and professionally formatted in Markdown:"

/-- Embedding of `BlogWriterAgent._create_blog_prompt(topic,
research_results)`. -/
def createBlogPrompt (topic : String)
    (research_results : List ResearchSource) : String :=
  promptPrefix ++ topic ++ promptMiddle ++
    String.intercalate "\n" (sourcesInfo research_results) ++ promptSuffix

/-! ## Embedding of Python `json.dumps` / `json.loads`

The storage layers serialize nested data with `json.dumps(value)`
(default options: `ensure_ascii=True`, separators `", "` and `": "`)
and decode with `json.loads`. `PyJson` models the Python values that
can flow into these columns: `None`, booleans, `int`s, strings, lists
and (string-keyed, duplicate-free) dicts. Floats are deliberately
outside the model (IEEE semantics are not statable here); `pyJsonLoads`
answers `none` both for malformed text and for numbers with a
fractional or exponent part, where Python would produce a `float`. -/

/-- Python values storable in the JSON text columns (without floats). -/
inductive PyJson where
  | null
  | bool (b : Bool)
  | int (n : Int)
  | str (s : String)
  | arr (elems : List PyJson)
  | obj (members : List (String × PyJson))
deriving Repr

/-- The decimal digit character of `n % 10`. -/
def digitChar (n : Nat) : Char := Char.ofNat (48 + n % 10)

/-- Decimal digits of a natural number, most significant first; the
fuel (first argument) bounds the number of digits and `n` itself always
suffices. -/
def natToCharsGo : Nat → Nat → List Char
  | 0, n => [digitChar n]
  | fuel + 1, n =>
    if n < 10 then [digitChar n]
    else natToCharsGo fuel (n / 10) ++ [digitChar (n % 10)]

/-- Decimal digits of a natural number, most significant first
(Python `str(n)` for `n >= 0`). -/
def natToChars (n : Nat) : List Char := natToCharsGo n n

/-- Python `str(i)` for an `int`. -/
def intToChars (i : Int) : List Char :=
  if i < 0 then '-' :: natToChars i.natAbs else natToChars i.toNat

/-- Lowercase hexadecimal digit of `n < 16`. -/
def hexDigitChar (n : Nat) : Char :=
  if n < 10 then Char.ofNat (48 + n) else Char.ofNat (87 + n)

/-- Four lowercase hex digits of `n < 0x10000` (Python `'%04x'`). -/
def hex4 (n : Nat) : List Char :=
  [hexDigitChar (n / 4096 % 16), hexDigitChar (n / 256 % 16),
   hexDigitChar (n / 16 % 16), hexDigitChar (n % 16)]

/-- Character escaping of `json.dumps` with `ensure_ascii=True`:
printable ASCII other than `"` and `\` is kept, the short escapes are
used for the usual controls, every other scalar becomes `\uXXXX`
(a surrogate pair for the astral plane). -/
def escapeChar (c : Char) : List Char :=
  if c = '"' then ['\\', '"']
  else if c = '\\' then ['\\', '\\']
  else if c = '\n' then ['\\', 'n']
  else if c = '\t' then ['\\', 't']
  else if c = '\r' then ['\\', 'r']
  else if c = Char.ofNat 8 then ['\\', 'b']
  else if c = Char.ofNat 12 then ['\\', 'f']
  else if 0x20 ≤ c.toNat ∧ c.toNat ≤ 0x7e then [c]
  else if c.toNat < 0x10000 then '\\' :: 'u' :: hex4 c.toNat
  else
    let v := c.toNat - 0x10000
    ('\\' :: 'u' :: hex4 (0xD800 + v / 0x400)) ++
      ('\\' :: 'u' :: hex4 (0xDC00 + v % 0x400))

/-- Serialization of a Python string literal inside JSON output. -/
def dumpsStrChars (s : String) : List Char :=
  '"' :: s.data.flatMap escapeChar ++ ['"']

mutual

/-- Embedding of `json.dumps` (default separators), as characters. -/
def dumpsChars : PyJson → List Char
  | PyJson.null => ['n', 'u', 'l', 'l']
  | PyJson.bool true => ['t', 'r', 'u', 'e']
  | PyJson.bool false => ['f', 'a', 'l', 's', 'e']
  | PyJson.int n => intToChars n
  | PyJson.str s => dumpsStrChars s
  | PyJson.arr l => '[' :: dumpsElems l ++ [']']
  | PyJson.obj l => Char.ofNat 123 :: dumpsMembers l ++ [Char.ofNat 125]

/-- Array elements joined by `", "`. -/
def dumpsElems : List PyJson → List Char
  | [] => []
  | [v] => dumpsChars v
  | v :: w :: rest => dumpsChars v ++ ',' :: ' ' :: dumpsElems (w :: rest)

/-- Object members `key: value` joined by `", "`. -/
def dumpsMembers : List (String × PyJson) → List Char
  | [] => []
  | [(k, v)] => dumpsStrChars k ++ ':' :: ' ' :: dumpsChars v
  | (k, v) :: m :: rest =>
    dumpsStrChars k ++ ':' :: ' ' :: dumpsChars v ++ ',' :: ' ' ::
      dumpsMembers (m :: rest)

end

/-- Embedding of `json.dumps(value)`. -/
def pyJsonDumps (v : PyJson) : String := String.mk (dumpsChars v)

/-- JSON whitespace skipped by the Python decoder. -/
def isJsonWs (c : Char) : Bool := c = ' ' || c = '\t' || c = '\n' || c = '\r'

/-- Drop leading JSON whitespace. -/
def skipWs (l : List Char) : List Char := l.dropWhile isJsonWs

/-- Value of one hexadecimal digit. -/
def hexVal (c : Char) : Option Nat :=
  if '0' ≤ c ∧ c ≤ '9' then some (c.toNat - 48)
  else if 'a' ≤ c ∧ c ≤ 'f' then some (c.toNat - 87)
  else if 'A' ≤ c ∧ c ≤ 'F' then some (c.toNat - 55)
  else none

/-- Body of a JSON string after the opening quote: the decoded
characters and the input following the closing quote. A `\uXXXX` high
surrogate immediately followed by a `\uXXXX` low surrogate decodes to
one astral character; a lone surrogate (which CPython would keep, but
which is not a unicode scalar and hence not a Lean `Char`, and which
`dumps` never produces unpaired) falls back to `Char.ofNat`. Strict
mode rejects raw control characters and unknown escapes. -/
def parseStringChars : Nat → List Char → Option (List Char × List Char)
  | 0, _ => none
  | _ + 1, [] => none
  | _ + 1, '"' :: r => some ([], r)
  | fuel + 1, '\\' :: 'u' :: d1 :: d2 :: d3 :: d4 :: r3 =>
    match hexVal d1, hexVal d2, hexVal d3, hexVal d4 with
    | some h1, some h2, some h3, some h4 =>
      let n := ((h1 * 16 + h2) * 16 + h3) * 16 + h4
      if 0xD800 ≤ n ∧ n ≤ 0xDBFF then
        if r3.take 2 = ['\\', 'u'] then
          match hexVal (r3.getD 2 ' '), hexVal (r3.getD 3 ' '),
              hexVal (r3.getD 4 ' '), hexVal (r3.getD 5 ' ') with
          | some g1, some g2, some g3, some g4 =>
            let m := ((g1 * 16 + g2) * 16 + g3) * 16 + g4
            if 0xDC00 ≤ m ∧ m ≤ 0xDFFF then
              (parseStringChars fuel (r3.drop 6)).map (fun p =>
                (Char.ofNat (0x10000 + (n - 0xD800) * 0x400 + (m - 0xDC00)) ::
                  p.1, p.2))
            else (parseStringChars fuel r3).map (fun p => (Char.ofNat n :: p.1, p.2))
          | _, _, _, _ => none
        else (parseStringChars fuel r3).map (fun p => (Char.ofNat n :: p.1, p.2))
      else (parseStringChars fuel r3).map (fun p => (Char.ofNat n :: p.1, p.2))
    | _, _, _, _ => none
  | fuel + 1, '\\' :: e :: r2 =>
    if e = '"' then (parseStringChars fuel r2).map (fun p => ('"' :: p.1, p.2))
    else if e = '\\' then (parseStringChars fuel r2).map (fun p => ('\\' :: p.1, p.2))
    else if e = '/' then (parseStringChars fuel r2).map (fun p => ('/' :: p.1, p.2))
    else if e = 'b' then
      (parseStringChars fuel r2).map (fun p => (Char.ofNat 8 :: p.1, p.2))
    else if e = 'f' then
      (parseStringChars fuel r2).map (fun p => (Char.ofNat 12 :: p.1, p.2))
    else if e = 'n' then (parseStringChars fuel r2).map (fun p => ('\n' :: p.1, p.2))
    else if e = 'r' then (parseStringChars fuel r2).map (fun p => ('\r' :: p.1, p.2))
    else if e = 't' then (parseStringChars fuel r2).map (fun p => ('\t' :: p.1, p.2))
    else none
  | _ + 1, ['\\'] => none
  | fuel + 1, c :: r =>
    if c.toNat < 0x20 then none
    else (parseStringChars fuel r).map (fun p => (c :: p.1, p.2))

/-- Numeric value of a digit character. -/
def digitVal (c : Char) : Nat := c.toNat - 48

/-- Value of a most-significant-first digit list. -/
def natFromDigits (ds : List Char) : Nat :=
  ds.foldl (fun acc c => acc * 10 + digitVal c) 0

/-- Integer tail of a JSON number: leading digits, rejecting a
fractional or exponent part (a Python `float`, outside this model). -/
def parseIntTail (l : List Char) : Option (Nat × List Char) :=
  let ds := l.takeWhile Char.isDigit
  let rest := l.dropWhile Char.isDigit
  if ds.isEmpty then none
  else
    match rest with
    | '.' :: _ => none
    | 'e' :: _ => none
    | 'E' :: _ => none
    | _ => some (natFromDigits ds, rest)

mutual

/-- Recursive-descent JSON value parser (the fuel bounds the recursion
depth; `2 * length + 2` always suffices, see `jsonFuel_le`). -/
def parseValue : Nat → List Char → Option (PyJson × List Char)
  | 0, _ => none
  | fuel + 1, l =>
    match skipWs l with
    | [] => none
    | c :: r =>
      if c = 'n' then
        match r with
        | 'u' :: 'l' :: 'l' :: r2 => some (PyJson.null, r2)
        | _ => none
      else if c = 't' then
        match r with
        | 'r' :: 'u' :: 'e' :: r2 => some (PyJson.bool true, r2)
        | _ => none
      else if c = 'f' then
        match r with
        | 'a' :: 'l' :: 's' :: 'e' :: r2 => some (PyJson.bool false, r2)
        | _ => none
      else if c = '"' then
        (parseStringChars (r.length + 1) r).map (fun p => (PyJson.str (String.mk p.1), p.2))
      else if c = '[' then
        match skipWs r with
        | ']' :: r2 => some (PyJson.arr [], r2)
        | _ => (parseElems fuel r).map (fun p => (PyJson.arr p.1, p.2))
      else if c = Char.ofNat 123 then
        match skipWs r with
        | c2 :: r2 =>
          if c2 = Char.ofNat 125 then some (PyJson.obj [], r2)
          else (parseMembers fuel r).map (fun p => (PyJson.obj p.1, p.2))
        | [] => none
      else if c = '-' then
        (parseIntTail r).map (fun p => (PyJson.int (-(p.1 : Int)), p.2))
      else if c.isDigit then
        (parseIntTail (c :: r)).map (fun p => (PyJson.int (p.1 : Int), p.2))
      else none

/-- Parser for the elements of a nonempty array body. -/
def parseElems : Nat → List Char → Option (List PyJson × List Char)
  | 0, _ => none
  | fuel + 1, l =>
    match parseValue fuel l with
    | none => none
    | some (v, r) =>
      match skipWs r with
      | ',' :: r2 => (parseElems fuel r2).map (fun p => (v :: p.1, p.2))
      | ']' :: r2 => some ([v], r2)
      | _ => none

/-- Parser for the members of a nonempty object body. -/
def parseMembers : Nat → List Char → Option (List (String × PyJson) × List Char)
  | 0, _ => none
  | fuel + 1, l =>
    match skipWs l with
    | '"' :: r =>
      match parseStringChars (r.length + 1) r with
      | none => none
      | some (k, r2) =>
        match skipWs r2 with
        | ':' :: r3 =>
          match parseValue fuel r3 with
          | none => none
          | some (v, r4) =>
            match skipWs r4 with
            | ',' :: r5 =>
              (parseMembers fuel r5).map
                (fun p => ((String.mk k, v) :: p.1, p.2))
            | c :: r5 =>
              if c = Char.ofNat 125 then some ([(String.mk k, v)], r5)
              else none
            | [] => none
        | _ => none
    | _ => none

end

/-- Embedding of `json.loads(s)` for the values of the model: parse one
value, then require only whitespace to remain (Python raises
`Extra data` otherwise). -/
def pyJsonLoads (s : String) : Option PyJson :=
  match parseValue (2 * s.data.length + 2) s.data with
  | some (v, rest) => if (skipWs rest).isEmpty then some v else none
  | none => none

mutual

/-- Fuel sufficient for `parseValue` on the output of `dumpsChars`. -/
def jsonFuel : PyJson → Nat
  | PyJson.arr l => 1 + jsonFuelElems l
  | PyJson.obj l => 1 + jsonFuelMembers l
  | _ => 1

/-- Fuel for `parseElems` on a serialized element list. -/
def jsonFuelElems : List PyJson → Nat
  | [] => 1
  | v :: rest => 1 + jsonFuel v + jsonFuelElems rest

/-- Fuel for `parseMembers` on a serialized member list. -/
def jsonFuelMembers : List (String × PyJson) → Nat
  | [] => 1
  | (_, v) :: rest => 1 + jsonFuel v + jsonFuelMembers rest

end

mutual

/-- Wellformedness of a `PyJson` value as the image of a Python object:
every object has pairwise-distinct keys (Python dicts cannot hold
duplicates). -/
def pyJsonWF : PyJson → Bool
  | PyJson.arr l => pyJsonWFElems l
  | PyJson.obj l =>
    decide (l.map Prod.fst).Nodup && pyJsonWFMembers l
  | _ => true

/-- Wellformedness of all elements. -/
def pyJsonWFElems : List PyJson → Bool
  | [] => true
  | v :: rest => pyJsonWF v && pyJsonWFElems rest

/-- Wellformedness of all member values. -/
def pyJsonWFMembers : List (String × PyJson) → Bool
  | [] => true
  | (_, v) :: rest => pyJsonWF v && pyJsonWFMembers rest

end

/-- Python truthiness of a JSON-storable value (`bool(value)`). -/
def pyTruthy : PyJson → Bool
  | PyJson.null => false
  | PyJson.bool b => b
  | PyJson.int n => decide (n ≠ 0)
  | PyJson.str s => !s.isEmpty
  | PyJson.arr l => !l.isEmpty
  | PyJson.obj l => !l.isEmpty

/-- Embedding of the Python idiom `value or default`. -/
def pyOrDefault (v dflt : PyJson) : PyJson := if pyTruthy v then v else dflt

/-! ## Storage layers (`src/backend/db.py` and `src/backend/database.py`)

`BlogStorage` (db.py) keeps blog posts in an AUTOINCREMENT-keyed table
with `source_refs`/`images`/`metadata` JSON text columns plus a
`blog_post_versions` table; `DatabaseManager` (database.py) keeps a
TEXT-keyed table with `sources`/`images` JSON columns (it has no
metadata column). `created_at`/`updated_at` timestamps are `Nat`
parameters. In the loaded records, a `none` JSON field models
`json.loads` raising `JSONDecodeError`. -/

/-- One row of the db.py `blog_posts` table. -/
structure PostRow where
  id : Nat
  topic : String
  markdown : String
  source_refs : String
  images : String
  metadata : String
  created_at : Nat
  updated_at : Nat
deriving Repr, DecidableEq

/-- One row of the db.py `blog_post_versions` table. -/
structure BlogPostVersionRow where
  post_id : Nat
  version_number : Nat
  markdown : String
  edit_instruction : String
  created_at : Nat
deriving Repr, DecidableEq

/-- State of a db.py `BlogStorage` database. `nextId` is the SQLite
AUTOINCREMENT counter (strictly above every id ever issued). -/
structure BlogStorageState where
  posts : List PostRow
  versions : List BlogPostVersionRow
  nextId : Nat
deriving Repr, DecidableEq

/-- Embedding of `BlogStorage.save_blog_post(topic, markdown,
references, images, metadata)`: the arguments are defaulted with
`references or []`, `images or []`, `metadata or {}`, serialized, and
inserted together with the initial version row. Returns the new row id
and state. -/
def saveBlogPost (st : BlogStorageState) (topic markdown : String)
    (references images metadata : PyJson) (now : Nat) :
    Nat × BlogStorageState :=
  let references_json := pyJsonDumps (pyOrDefault references (PyJson.arr []))
  let images_json := pyJsonDumps (pyOrDefault images (PyJson.arr []))
  let metadata_json := pyJsonDumps (pyOrDefault metadata (PyJson.obj []))
  let post_id := st.nextId
  let row : PostRow :=
    { id := post_id, topic := topic, markdown := markdown
      source_refs := references_json, images := images_json
      metadata := metadata_json, created_at := now, updated_at := now }
  let vrow : BlogPostVersionRow :=
    { post_id := post_id, version_number := 1, markdown := markdown
      edit_instruction := "Initial version", created_at := now }
  (post_id,
   { posts := st.posts ++ [row], versions := st.versions ++ [vrow]
     nextId := st.nextId + 1 })

/-- A post as returned by `BlogStorage.get_blog_post`: the three JSON
columns decoded (`[]`/`{}` when the column text is falsy). -/
structure LoadedPost where
  id : Nat
  topic : String
  markdown : String
  references : Option PyJson
  images : Option PyJson
  metadata : Option PyJson
deriving Repr

/-- Embedding of `BlogStorage.get_blog_post(post_id)`. -/
def getBlogPost (st : BlogStorageState) (post_id : Nat) : Option LoadedPost :=
  (st.posts.find? (fun r => r.id = post_id)).map (fun row =>
    { id := row.id, topic := row.topic, markdown := row.markdown
      references :=
        if row.source_refs ≠ "" then pyJsonLoads row.source_refs
        else some (PyJson.arr [])
      images :=
        if row.images ≠ "" then pyJsonLoads row.images
        else some (PyJson.arr [])
      metadata :=
        if row.metadata ≠ "" then pyJsonLoads row.metadata
        else some (PyJson.obj []) })

/-- A database.py `BlogPost` (api_models.BlogPost) to be saved:
`sources` and `images` are the JSON-serializable payloads. -/
structure DMBlogPost where
  id : String
  topic : String
  content : String
  word_count : Nat
  sources : PyJson
  images : PyJson
  provider : String
  model : String
  created_at : Nat
  updated_at : Nat
deriving Repr

/-- One row of the database.py `blog_posts` table. -/
structure DMRow where
  id : String
  topic : String
  content : String
  word_count : Nat
  sources : String
  images : String
  provider : String
  model : String
  created_at : Nat
  updated_at : Nat
deriving Repr, DecidableEq

/-- Embedding of `DatabaseManager.save_blog_post` (`INSERT OR REPLACE`
on the TEXT primary key). -/
def dmSaveBlogPost (st : List DMRow) (bp : DMBlogPost) : List DMRow :=
  let row : DMRow :=
    { id := bp.id, topic := bp.topic, content := bp.content
      word_count := bp.word_count
      sources := pyJsonDumps bp.sources, images := pyJsonDumps bp.images
      provider := bp.provider, model := bp.model
      created_at := bp.created_at, updated_at := bp.updated_at }
  if st.any (fun r => r.id = bp.id) then
    st.map (fun r => if r.id = bp.id then row else r)
  else st ++ [row]

/-- A post as rebuilt by `DatabaseManager._row_to_blog_post`. -/
structure DMLoadedPost where
  id : String
  topic : String
  content : String
  word_count : Nat
  sources : Option PyJson
  images : Option PyJson
  provider : String
  model : String
  created_at : Nat
  updated_at : Nat
deriving Repr

/-- Embedding of `DatabaseManager.get_blog_post` composed with
`_row_to_blog_post`. -/
def dmGetBlogPost (st : List DMRow) (post_id : String) :
    Option DMLoadedPost :=
  (st.find? (fun r => r.id = post_id)).map (fun row =>
    { id := row.id, topic := row.topic, content := row.content
      word_count := row.word_count
      sources :=
        if row.sources ≠ "" then pyJsonLoads row.sources
        else some (PyJson.arr [])
      images :=
        if row.images ≠ "" then pyJsonLoads row.images
        else some (PyJson.arr [])
      provider := row.provider, model := row.model
      created_at := row.created_at, updated_at := row.updated_at })

/-! ## Backend version store (`src/backend/main.py`)

The `/edit` endpoint inserts a row into the `versions` table with
`version_number = MAX(version_number per post) + 1` and a
`v_{timestamp}` primary key; `/edit/undo/{version_id}` looks the row up
and points `blog_posts.current_version_id` at it; `DELETE
/edit/history/{post_id}` deletes the post's version rows (leaving the
pointer untouched). Only the `blog_posts` columns involved in the
claims (`id`, `current_version_id`) are modelled. -/

/-- One row of the backend `versions` table. -/
structure BackendVersionRow where
  id : String
  post_id : String
  content : String
  instruction : String
  created_at : Nat
  version_number : Nat
deriving Repr, DecidableEq

/-- The claim-relevant columns of one backend `blog_posts` row. -/
structure BackendPostRow where
  id : String
  current_version_id : Option String
deriving Repr, DecidableEq

/-- State of the backend database. -/
structure BackendDB where
  posts : List BackendPostRow
  versions : List BackendVersionRow
deriving Repr, DecidableEq

/-- Embedding of `SELECT MAX(version_number) FROM versions WHERE
post_id = ?` with the `or 0` default. -/
def maxVersionNumber (db : BackendDB) (post_id : String) : Nat :=
  ((db.versions.filter (fun v => v.post_id = post_id)).map
    BackendVersionRow.version_number).foldl max 0

/-- Version insertion of the `/edit` endpoint. The id is
`f"v_{timestamp}"`; a colliding primary key makes the `INSERT` raise,
the handler answer 500 and the transaction roll back, leaving the
database unchanged. -/
def backendEdit (db : BackendDB) (post_id content instruction : String)
    (now : Nat) : BackendDB :=
  let version_id := "v_" ++ toString now
  if db.versions.any (fun v => v.id = version_id) then db
  else
    { db with
      versions := db.versions ++
        [{ id := version_id, post_id := post_id, content := content
           instruction := instruction, created_at := now
           version_number := maxVersionNumber db post_id + 1 }] }

/-- Embedding of the `/edit/undo/{version_id}` endpoint: look the
version up (404 leaves the state unchanged) and `UPDATE` the post's
`current_version_id`. -/
def backendUndo (db : BackendDB) (version_id : String) : BackendDB :=
  match db.versions.find? (fun v => v.id = version_id) with
  | none => db
  | some row =>
    { db with
      posts := db.posts.map (fun p =>
        if p.id = row.post_id then { p with current_version_id := some version_id }
        else p) }

/-- Embedding of the `DELETE /edit/history/{post_id}` endpoint. -/
def backendClear (db : BackendDB) (post_id : String) : BackendDB :=
  { db with versions := db.versions.filter (fun v => ¬ v.post_id = post_id) }

/-- One request against the backend version store. -/
inductive BackendOp
  | edit (post_id content instruction : String) (now : Nat)
  | undo (version_id : String)
  | clear (post_id : String)
deriving Repr, DecidableEq

/-- Apply one request. -/
def backendStep (db : BackendDB) : BackendOp → BackendDB
  | BackendOp.edit post_id content instruction now =>
    backendEdit db post_id content instruction now
  | BackendOp.undo version_id => backendUndo db version_id
  | BackendOp.clear post_id => backendClear db post_id

/-- Apply a request sequence. -/
def backendRun (db : BackendDB) : List BackendOp → BackendDB
  | [] => db
  | op :: ops => backendRun (backendStep db op) ops

/-- Whether a request is a history deletion. -/
def isClearOp : BackendOp → Bool
  | BackendOp.clear _ => true
  | _ => false

/-- The version numbers recorded for one post, in insertion order. -/
def postNums (db : BackendDB) (post_id : String) : List Nat :=
  (db.versions.filter (fun v => v.post_id = post_id)).map
    BackendVersionRow.version_number

/-- The "current" pointer of every post refers to an existing version
row. -/
def pointersOk (db : BackendDB) : Prop :=
  ∀ p ∈ db.posts, ∀ vid, p.current_version_id = some vid →
    ∃ v ∈ db.versions, v.id = vid

/-- Statement abbreviation for the JSON round-trip proofs: the
remaining input after a serialized number does not begin with a digit,
`.`, `e` or `E` (inside serialized composites it begins with `,`, `]`
or the closing brace, and at top level it is empty). -/
def nonNumTail (rest : List Char) : Prop :=
  ∀ c, rest.head? = some c →
    (c.isDigit = false ∧ c ≠ '.' ∧ c ≠ 'e' ∧ c ≠ 'E')

/-- First characters a serialized JSON value can start with. -/
def headOkJson (c : Char) : Bool :=
  c = 'n' || c = 't' || c = 'f' || c = '"' || c = '[' || c = Char.ofNat 123 ||
    c = '-' || c.isDigit

/-! ## Helper lemmas about the Python slice `lst[-k:]` -/

theorem pySliceLast_of_le {α : Type} (l : List α) (k : Nat) (h : l.length ≤ k) :
    pySliceLast l k = l := by
  unfold pySliceLast
  split
  · rfl
  · rw [Nat.sub_eq_zero_of_le h, List.drop_zero]

theorem pySliceLast_length {α : Type} (l : List α) (k : Nat) (hk : 1 ≤ k) :
    (pySliceLast l k).length = min k l.length := by
  unfold pySliceLast
  rw [if_neg (by omega), List.length_drop]
  omega

theorem pySliceLast_trim_append {α : Type} (l A : List α) (k : Nat)
    (hk : 1 ≤ k) :
    pySliceLast (pySliceLast l k ++ A) k = pySliceLast (l ++ A) k := by
  rcases le_or_lt l.length k with h | h
  · rw [pySliceLast_of_le l k h]
  · have hk0 : ¬ k = 0 := by omega
    unfold pySliceLast
    rw [if_neg hk0, if_neg hk0, if_neg hk0]
    rw [List.drop_append_eq_append_drop, List.drop_append_eq_append_drop]
    have hlen : (List.drop (l.length - k) l).length = k := by
      rw [List.length_drop]; omega
    rw [List.drop_drop]
    simp only [List.length_append, List.length_drop]
    congr 2 <;> omega

/-! ## Lemmas about `_add_version` sequences -/

theorem addVersion_max_versions (s : EditingAgentState) (c i : String)
    (t : Nat) : (addVersion s c i t).1.max_versions = s.max_versions := rfl

theorem addVersion_history_eq (s : EditingAgentState) (c i : String) (t : Nat) :
    (addVersion s c i t).1.version_history =
      (if s.max_versions < (s.version_history ++ [(addVersion s c i t).2]).length
       then pySliceLast (s.version_history ++ [(addVersion s c i t).2])
         s.max_versions
       else s.version_history ++ [(addVersion s c i t).2]) := rfl

theorem addVersion_length_le (s : EditingAgentState) (c i : String) (t : Nat)
    (h1 : 1 ≤ s.max_versions)
    (h2 : s.version_history.length ≤ s.max_versions) :
    (addVersion s c i t).1.version_history.length ≤ s.max_versions := by
  rw [addVersion_history_eq]
  split
  · rw [pySliceLast_length _ _ h1]; omega
  · rename_i hn
    simp only [List.length_append, List.length_cons, List.length_nil] at hn ⊢
    omega

theorem runAdds_history (inputs : List (String × String × Nat)) :
    ∀ s : EditingAgentState, 1 ≤ s.max_versions →
    s.version_history.length ≤ s.max_versions →
    (runAdds s inputs).version_history =
      pySliceLast (s.version_history ++ addedVersions s inputs)
        s.max_versions := by
  induction inputs with
  | nil =>
    intro s h1 h2
    simp only [runAdds, addedVersions, List.append_nil]
    rw [pySliceLast_of_le _ _ h2]
  | cons p rest ih =>
    intro s h1 h2
    obtain ⟨c, i, t⟩ := p
    have e1 : runAdds s ((c, i, t) :: rest) = runAdds (addVersion s c i t).1 rest := rfl
    have e2 : addedVersions s ((c, i, t) :: rest) =
        (addVersion s c i t).2 :: addedVersions (addVersion s c i t).1 rest := rfl
    rw [e1, e2]
    rw [ih (addVersion s c i t).1 h1 (addVersion_length_le s c i t h1 h2)]
    rw [addVersion_max_versions]
    have hassoc : s.version_history ++ (addVersion s c i t).2 ::
        addedVersions (addVersion s c i t).1 rest =
        (s.version_history ++ [(addVersion s c i t).2]) ++
          addedVersions (addVersion s c i t).1 rest := by
      simp
    rw [hassoc, addVersion_history_eq]
    split
    · rw [pySliceLast_trim_append _ _ _ h1]
    · rfl

/-! ## Lemmas about `undo_to_version` -/

theorem undoFind_eq_none (l : List EditVersion) (vid : String)
    (h : ∀ v ∈ l, v.version_id ≠ vid) : undoFind l vid = none := by
  induction l with
  | nil => rfl
  | cons v rest ih =>
    simp only [undoFind]
    rw [if_neg (h v (by simp))]
    exact ih (fun w hw => h w (by simp [hw]))

theorem undoFind_unique (l : List EditVersion) (vid : String) (v : EditVersion)
    (hv : v ∈ l) (hid : v.version_id = vid)
    (hcount : l.countP (fun w => w.version_id == vid) = 1) :
    undoFind l vid = some v.content := by
  induction l with
  | nil => cases hv
  | cons w rest ih =>
    by_cases hw : w.version_id = vid
    · have he : undoFind (w :: rest) vid = some w.content := by
        simp [undoFind, hw]
      rw [he]
      have hrest : rest.countP (fun x => x.version_id == vid) = 0 := by
        rw [List.countP_cons] at hcount
        simp only [hw, beq_self_eq_true, if_true] at hcount
        omega
      rcases List.mem_cons.mp hv with h | h
      · rw [h]
      · exfalso
        have : 0 < rest.countP (fun x => x.version_id == vid) :=
          List.countP_pos_iff.mpr ⟨v, h, by simp [hid]⟩
        omega
    · have he : undoFind (w :: rest) vid = undoFind rest vid := by
        simp [undoFind, hw]
      rw [he]
      have hv2 : v ∈ rest := by
        rcases List.mem_cons.mp hv with h | h
        · exfalso; rw [h] at hid; exact hw hid
        · exact h
      apply ih hv2
      rw [List.countP_cons] at hcount
      have hbf : (w.version_id == vid) = false := beq_eq_false_iff_ne.mpr hw
      rw [hbf] at hcount
      simpa using hcount

/-! ## Lemmas about version numbering -/

theorem addVersion_length_eq (s : EditingAgentState) (c i : String) (t : Nat)
    (h1 : 1 ≤ s.max_versions)
    (h2 : s.version_history.length ≤ s.max_versions) :
    (addVersion s c i t).1.version_history.length =
      min (s.version_history.length + 1) s.max_versions := by
  rw [addVersion_history_eq]
  split
  · rw [pySliceLast_length _ _ h1]
    simp only [List.length_append, List.length_cons, List.length_nil]
    omega
  · rename_i hn
    simp only [List.length_append, List.length_cons, List.length_nil] at hn ⊢
    omega

theorem addedNumbers_chain_le (inputs : List (String × String × Nat)) :
    ∀ s : EditingAgentState, 1 ≤ s.max_versions →
    s.version_history.length ≤ s.max_versions →
    List.Chain' (· ≤ ·) (addedNumbers s inputs) := by
  induction inputs with
  | nil => intro s _ _; exact List.chain'_nil
  | cons p rest ih =>
    intro s h1 h2
    obtain ⟨c, i, t⟩ := p
    have e : addedNumbers s ((c, i, t) :: rest) =
        addVersionNumber s :: addedNumbers (addVersion s c i t).1 rest := rfl
    rw [e, List.chain'_cons']
    have hlen := addVersion_length_eq s c i t h1 h2
    have hle : (addVersion s c i t).1.version_history.length ≤
        (addVersion s c i t).1.max_versions := by
      rw [addVersion_max_versions, hlen]; omega
    refine ⟨?_, ih (addVersion s c i t).1 (by rw [addVersion_max_versions]; exact h1) hle⟩
    intro y hy
    cases rest with
    | nil => simp [addedNumbers] at hy
    | cons q qs =>
      obtain ⟨c2, i2, t2⟩ := q
      have e2 : addedNumbers (addVersion s c i t).1 ((c2, i2, t2) :: qs) =
          addVersionNumber (addVersion s c i t).1 ::
            addedNumbers (addVersion (addVersion s c i t).1 c2 i2 t2).1 qs := rfl
      rw [e2] at hy
      simp only [List.head?_cons, Option.mem_def, Option.some.injEq] at hy
      subst hy
      unfold addVersionNumber
      rw [hlen]
      omega

theorem addedNumbers_chain_lt (inputs : List (String × String × Nat)) :
    ∀ s : EditingAgentState,
    s.version_history.length + inputs.length ≤ s.max_versions →
    List.Chain' (· < ·) (addedNumbers s inputs) := by
  induction inputs with
  | nil => intro s _; exact List.chain'_nil
  | cons p rest ih =>
    intro s h2
    obtain ⟨c, i, t⟩ := p
    have e : addedNumbers s ((c, i, t) :: rest) =
        addVersionNumber s :: addedNumbers (addVersion s c i t).1 rest := rfl
    rw [e, List.chain'_cons']
    have h1 : 1 ≤ s.max_versions := by
      simp only [List.length_cons] at h2; omega
    have hlen : (addVersion s c i t).1.version_history.length =
        s.version_history.length + 1 := by
      rw [addVersion_length_eq s c i t h1 (by simp only [List.length_cons] at h2; omega)]
      simp only [List.length_cons] at h2
      omega
    refine ⟨?_, ?_⟩
    · intro y hy
      cases rest with
      | nil => simp [addedNumbers] at hy
      | cons q qs =>
        obtain ⟨c2, i2, t2⟩ := q
        have e2 : addedNumbers (addVersion s c i t).1 ((c2, i2, t2) :: qs) =
            addVersionNumber (addVersion s c i t).1 ::
              addedNumbers (addVersion (addVersion s c i t).1 c2 i2 t2).1 qs := rfl
        rw [e2] at hy
        simp only [List.head?_cons, Option.mem_def, Option.some.injEq] at hy
        subst hy
        unfold addVersionNumber
        rw [hlen]
        omega
    · apply ih
      rw [hlen, addVersion_max_versions]
      simp only [List.length_cons] at h2
      omega

theorem le_foldl_max_init (l : List Nat) : ∀ a : Nat, a ≤ l.foldl max a := by
  induction l with
  | nil => intro a; exact Nat.le_refl a
  | cons b rest ih =>
    intro a
    calc a ≤ max a b := Nat.le_max_left a b
    _ ≤ rest.foldl max (max a b) := ih (max a b)

theorem mem_le_foldl_max (l : List Nat) :
    ∀ (a x : Nat), x ∈ l → x ≤ l.foldl max a := by
  induction l with
  | nil => intro a x hx; cases hx
  | cons b rest ih =>
    intro a x hx
    rcases List.mem_cons.mp hx with h | h
    · subst h
      calc x ≤ max a x := Nat.le_max_right a x
      _ ≤ rest.foldl max (max a x) := le_foldl_max_init rest (max a x)
    · exact ih (max a b) x h

theorem postNums_pairwise_step (db : BackendDB) (op : BackendOp)
    (h : ∀ pid, List.Pairwise (· < ·) (postNums db pid)) :
    ∀ pid, List.Pairwise (· < ·) (postNums (backendStep db op) pid) := by
  cases op with
  | edit pid' c i now =>
    intro pid
    show List.Pairwise (· < ·) (postNums (backendEdit db pid' c i now) pid)
    by_cases hc : (db.versions.any fun v => decide (v.id = "v_" ++ toString now)) = true
    · have he : backendEdit db pid' c i now = db := by
        simp only [backendEdit, hc, if_true]
      rw [he]
      exact h pid
    · have he : backendEdit db pid' c i now =
          { db with versions := db.versions ++
            [{ id := "v_" ++ toString now, post_id := pid', content := c
               instruction := i, created_at := now
               version_number := maxVersionNumber db pid' + 1 }] } := by
        simp only [backendEdit]
        rw [if_neg hc]
      rw [he]
      unfold postNums
      simp only [List.filter_append, List.map_append]
      by_cases hpid : pid' = pid
      · subst hpid
        have hrow : List.filter (fun v : BackendVersionRow => v.post_id = pid')
            [{ id := "v_" ++ toString now, post_id := pid', content := c
               instruction := i, created_at := now
               version_number := maxVersionNumber db pid' + 1 }] =
            [{ id := "v_" ++ toString now, post_id := pid', content := c
               instruction := i, created_at := now
               version_number := maxVersionNumber db pid' + 1 }] := by
          simp
        rw [hrow]
        rw [List.pairwise_append]
        refine ⟨h pid', by simp, ?_⟩
        intro a ha b hb
        simp only [List.map_cons, List.map_nil, List.mem_singleton] at hb
        subst hb
        show a < maxVersionNumber db pid' + 1
        have : a ≤ (postNums db pid').foldl max 0 :=
          mem_le_foldl_max (postNums db pid') 0 a ha
        have hmv : maxVersionNumber db pid' = (postNums db pid').foldl max 0 := rfl
        omega
      · have hrow : List.filter (fun v : BackendVersionRow => v.post_id = pid)
            [{ id := "v_" ++ toString now, post_id := pid', content := c
               instruction := i, created_at := now
               version_number := maxVersionNumber db pid' + 1 }] =
            ([] : List BackendVersionRow) := by
          simp [hpid]
        rw [hrow]
        simpa using h pid
  | undo vid =>
    intro pid
    show List.Pairwise (· < ·) (postNums (backendUndo db vid) pid)
    unfold backendUndo
    cases hf : db.versions.find? (fun v => v.id = vid) with
    | none => exact h pid
    | some row => exact h pid
  | clear pid' =>
    intro pid
    show List.Pairwise (· < ·) (postNums (backendClear db pid') pid)
    unfold backendClear postNums
    simp only
    rw [List.filter_filter]
    have hcomm : List.filter
        (fun v : BackendVersionRow => decide (v.post_id = pid) &&
          decide (¬ v.post_id = pid')) db.versions =
        List.filter (fun v : BackendVersionRow => decide (¬ v.post_id = pid'))
          (List.filter (fun v : BackendVersionRow => v.post_id = pid)
            db.versions) := by
      rw [List.filter_filter]
      apply List.filter_congr
      intro v _
      rw [Bool.and_comm]
    rw [hcomm]
    have hsub : (List.filter
        (fun v : BackendVersionRow => decide (¬ v.post_id = pid'))
          (List.filter (fun v : BackendVersionRow => v.post_id = pid)
            db.versions)).map BackendVersionRow.version_number |>.Sublist
        ((List.filter (fun v : BackendVersionRow => v.post_id = pid)
          db.versions).map BackendVersionRow.version_number) :=
      List.Sublist.map _ (List.filter_sublist _)
    exact List.Pairwise.sublist hsub (h pid)

theorem postNums_pairwise_run (ops : List BackendOp) :
    ∀ db : BackendDB, (∀ pid, List.Pairwise (· < ·) (postNums db pid)) →
    ∀ pid, List.Pairwise (· < ·) (postNums (backendRun db ops) pid) := by
  induction ops with
  | nil => intro db h pid; exact h pid
  | cons op rest ih =>
    intro db h pid
    exact ih (backendStep db op) (postNums_pairwise_step db op h) pid

theorem pointersOk_step (db : BackendDB) (op : BackendOp)
    (hop : isClearOp op = false) (h : pointersOk db) :
    pointersOk (backendStep db op) := by
  cases op with
  | edit pid' c i now =>
    show pointersOk (backendEdit db pid' c i now)
    by_cases hc : (db.versions.any fun v => decide (v.id = "v_" ++ toString now)) = true
    · have he : backendEdit db pid' c i now = db := by
        simp only [backendEdit, hc, if_true]
      rw [he]
      exact h
    · have he : backendEdit db pid' c i now =
          { db with versions := db.versions ++
            [{ id := "v_" ++ toString now, post_id := pid', content := c
               instruction := i, created_at := now
               version_number := maxVersionNumber db pid' + 1 }] } := by
        simp only [backendEdit]
        rw [if_neg hc]
      rw [he]
      intro p hp vid hvid
      obtain ⟨v, hv, hvid2⟩ := h p hp vid hvid
      exact ⟨v, List.mem_append_left _ hv, hvid2⟩
  | undo vid =>
    show pointersOk (backendUndo db vid)
    unfold backendUndo
    cases hf : db.versions.find? (fun v => v.id = vid) with
    | none => exact h
    | some row =>
      intro p hp vid' hvid'
      simp only [List.mem_map] at hp
      obtain ⟨q, hq, hpq⟩ := hp
      by_cases hid : q.id = row.post_id
      · rw [if_pos hid] at hpq
        subst hpq
        simp only [Option.some.injEq] at hvid'
        subst hvid'
        refine ⟨row, List.mem_of_find?_eq_some hf, ?_⟩
        have := List.find?_some hf
        exact of_decide_eq_true this
      · rw [if_neg hid] at hpq
        subst hpq
        exact h q hq vid' hvid'
  | clear pid' => simp [isClearOp] at hop

theorem pointersOk_run (ops : List BackendOp) :
    ∀ db : BackendDB, (∀ op ∈ ops, isClearOp op = false) → pointersOk db →
    pointersOk (backendRun db ops) := by
  induction ops with
  | nil => intro db _ h; exact h
  | cons op rest ih =>
    intro db hops h
    exact ih (backendStep db op)
      (fun o ho => hops o (List.mem_cons_of_mem op ho))
      (pointersOk_step db op (hops op (List.mem_cons_self op rest)) h)

/-! ## Claim theorems -/

/-- C1: whenever the LLM call inside `EditingAgent.apply_edit` raises,
the returned `EditResult` carries the original `markdown_text` both as
`original_content` and as `edited_content`, has `success = False` and a
non-`None` `error_message`; the content is never dropped on failure. -/
theorem C1_applyEdit_failure_returns_original (s : EditingAgentState)
    (markdown_text instruction : String) (track_version : Bool) (now : Nat)
    (e : String) :
    (applyEdit s markdown_text instruction track_version now
      (Except.error e)).1.edited_content = markdown_text ∧
    (applyEdit s markdown_text instruction track_version now
      (Except.error e)).1.original_content = markdown_text ∧
    (applyEdit s markdown_text instruction track_version now
      (Except.error e)).1.success = false ∧
    (applyEdit s markdown_text instruction track_version now
      (Except.error e)).1.error_message = some e :=
  ⟨rfl, rfl, rfl, rfl⟩

/-- C10: a failed `apply_edit` (the LLM call raised) leaves
`version_history` — in fact the whole agent state — exactly as it was,
even when `track_version` is `True`: `_add_version` is only reached on
the success path. -/
theorem C10_applyEdit_failure_preserves_history (s : EditingAgentState)
    (markdown_text instruction : String) (track_version : Bool) (now : Nat)
    (e : String) :
    (applyEdit s markdown_text instruction track_version now
      (Except.error e)).2 = s := rfl

/-- C2 (amended): for every sequence of `_add_version` calls starting
from a fresh agent, provided `max_versions ≥ 1` (Python's `lst[-0:]`
slice does not trim, so a `max_versions = 0` configuration never
evicts), the history length never exceeds `max_versions` and the
surviving entries are exactly the most recently appended `max_versions`
entries in their original order (pure FIFO eviction). -/
theorem C2_history_bounded_fifo (s : EditingAgentState)
    (inputs : List (String × String × Nat)) (h1 : 1 ≤ s.max_versions)
    (h2 : s.version_history = []) :
    (runAdds s inputs).version_history.length ≤ s.max_versions ∧
    (runAdds s inputs).version_history =
      pySliceLast (addedVersions s inputs) s.max_versions := by
  have h := runAdds_history inputs s h1 (by rw [h2]; simp)
  rw [h2] at h
  rw [List.nil_append] at h
  refine ⟨?_, h⟩
  rw [h, pySliceLast_length _ _ h1]
  omega

/-- Witness for C2: three adds against `max_versions = 2` keep only the
last two created versions. -/
theorem C2_history_bounded_fifo_witness :
    (1 ≤ (2 : Nat)) ∧
    (runAdds ⟨"groq", "llama-3.1-8b-instant", 2, []⟩
      [("c1", "i1", 5), ("c2", "i2", 6), ("c3", "i3", 7)]).version_history.length ≤ 2 ∧
    (runAdds ⟨"groq", "llama-3.1-8b-instant", 2, []⟩
      [("c1", "i1", 5), ("c2", "i2", 6), ("c3", "i3", 7)]).version_history =
      pySliceLast (addedVersions ⟨"groq", "llama-3.1-8b-instant", 2, []⟩
        [("c1", "i1", 5), ("c2", "i2", 6), ("c3", "i3", 7)]) 2 :=
  ⟨by decide,
   C2_history_bounded_fifo ⟨"groq", "llama-3.1-8b-instant", 2, []⟩
     [("c1", "i1", 5), ("c2", "i2", 6), ("c3", "i3", 7)] (by decide) rfl⟩

/-- Counterexample to C2 as stated: with the configured
`max_versions = 0` a single `_add_version` leaves one entry in the
history, exceeding the bound — `lst[-0:]` is the whole list, so the
trim never removes anything. -/
theorem C2_counterexample_max_zero :
    (runAdds ⟨"groq", "llama-3.1-8b-instant", 0, []⟩
      [("c", "i", 0)]).version_history.length = 1 ∧
    ¬ ((runAdds ⟨"groq", "llama-3.1-8b-instant", 0, []⟩
      [("c", "i", 0)]).version_history.length ≤
        (EditingAgentState.mk "groq" "llama-3.1-8b-instant" 0 []).max_versions) := by
  decide

/-- C3 (amended): `undo_to_version` never mutates the agent state (in
particular the history length is unchanged and no newer versions are
removed); for a `version_id` carried by exactly one history entry it
returns exactly that entry's stored content (after FIFO trimming two
entries can share an id, in which case the first one wins); for an
absent id it returns `None`. -/
theorem C3_undo_nondestructive (s : EditingAgentState) (version_id : String) :
    (undoToVersion s version_id).2 = s ∧
    (∀ v ∈ s.version_history, v.version_id = version_id →
      s.version_history.countP (fun w => w.version_id == version_id) = 1 →
      (undoToVersion s version_id).1 = some v.content) ∧
    ((∀ v ∈ s.version_history, v.version_id ≠ version_id) →
      (undoToVersion s version_id).1 = none) :=
  ⟨rfl,
   fun v hv hid hcount => undoFind_unique s.version_history version_id v hv hid hcount,
   fun h => undoFind_eq_none s.version_history version_id h⟩

/-- Witness for C3: a one-entry history is read back unchanged. -/
theorem C3_undo_nondestructive_witness :
    (undoToVersion ⟨"groq", "llama-3.1-8b-instant", 10,
      [⟨"v1_3", "body", "instr", 3, none⟩]⟩ "v1_3").2 =
      ⟨"groq", "llama-3.1-8b-instant", 10, [⟨"v1_3", "body", "instr", 3, none⟩]⟩ ∧
    (undoToVersion ⟨"groq", "llama-3.1-8b-instant", 10,
      [⟨"v1_3", "body", "instr", 3, none⟩]⟩ "v1_3").1 = some "body" :=
  ⟨(C3_undo_nondestructive ⟨"groq", "llama-3.1-8b-instant", 10,
      [⟨"v1_3", "body", "instr", 3, none⟩]⟩ "v1_3").1,
   (C3_undo_nondestructive ⟨"groq", "llama-3.1-8b-instant", 10,
      [⟨"v1_3", "body", "instr", 3, none⟩]⟩ "v1_3").2.1
     ⟨"v1_3", "body", "instr", 3, none⟩ (by decide) rfl (by decide)⟩

/-- Counterexample to C3 as stated: after FIFO trimming the id counter
`len(history)+1` repeats, so two adds in the same `strftime` second
produce two history entries with the same id `v3_7` and different
contents; for the second such entry `v`, `undo_to_version(v.version_id)`
returns the first entry's content `c3`, not `v`'s stored `c4`. -/
theorem C3_counterexample_duplicate_id :
    ((runAdds ⟨"groq", "llama-3.1-8b-instant", 2, []⟩
        [("c1", "i", 7), ("c2", "i", 7), ("c3", "i", 7), ("c4", "i", 7)]).version_history.getD
      1 default).version_id = "v3_7" ∧
    ((runAdds ⟨"groq", "llama-3.1-8b-instant", 2, []⟩
        [("c1", "i", 7), ("c2", "i", 7), ("c3", "i", 7), ("c4", "i", 7)]).version_history.getD
      1 default).content = "c4" ∧
    (undoToVersion (runAdds ⟨"groq", "llama-3.1-8b-instant", 2, []⟩
        [("c1", "i", 7), ("c2", "i", 7), ("c3", "i", 7), ("c4", "i", 7)])
      "v3_7").1 = some "c3" ∧
    ("c3" : String) ≠ "c4" := by
  decide

/-- C4 (amended): (in-memory agent) for a fresh agent with
`max_versions ≥ 1`, the numeric components of the version ids created
by a `_add_version` sequence are non-decreasing, and strictly
increasing as long as the history has not reached its bound (after an
eviction the counter `len(history)+1` stalls at `max_versions+1`);
(persisted backend) in every database reachable from an empty
`versions` table, the version numbers recorded per post are strictly
increasing in insertion order; and as long as no history deletion is
issued, the `current_version_id` pointer of every post (initially
unset) refers to an existing version row — `undo` only ever points it
at a row it just found. -/
theorem C4_version_number_monotonicity :
    (∀ (s : EditingAgentState) (inputs : List (String × String × Nat)),
      1 ≤ s.max_versions → s.version_history = [] →
      List.Chain' (· ≤ ·) (addedNumbers s inputs) ∧
      (inputs.length ≤ s.max_versions →
        List.Chain' (· < ·) (addedNumbers s inputs))) ∧
    (∀ (db : BackendDB) (ops : List BackendOp) (pid : String),
      db.versions = [] →
      List.Pairwise (· < ·) (postNums (backendRun db ops) pid)) ∧
    (∀ (db : BackendDB) (ops : List BackendOp),
      (∀ p ∈ db.posts, p.current_version_id = none) →
      (∀ op ∈ ops, isClearOp op = false) →
      pointersOk (backendRun db ops)) := by
  refine ⟨?_, ?_, ?_⟩
  · intro s inputs h1 h2
    refine ⟨addedNumbers_chain_le inputs s h1 (by rw [h2]; simp), ?_⟩
    intro hlen
    exact addedNumbers_chain_lt inputs s (by rw [h2]; simpa using hlen)
  · intro db ops pid hdb
    apply postNums_pairwise_run ops db
    intro pid2
    unfold postNums
    rw [hdb]
    exact List.Pairwise.nil
  · intro db ops hinit hops
    apply pointersOk_run ops db hops
    intro p hp vid hvid
    rw [hinit p hp] at hvid
    cases hvid

/-- Witness for C4: two adds against a fresh `max_versions = 2` agent
and an edit/undo pair against a one-post backend database. -/
theorem C4_version_number_monotonicity_witness :
    ((1 ≤ (2 : Nat)) ∧
      List.Chain' (· ≤ ·) (addedNumbers ⟨"groq", "llama-3.1-8b-instant", 2, []⟩
        [("a", "i", 4), ("b", "i", 5)]) ∧
      List.Chain' (· < ·) (addedNumbers ⟨"groq", "llama-3.1-8b-instant", 2, []⟩
        [("a", "i", 4), ("b", "i", 5)])) ∧
    List.Pairwise (· < ·) (postNums (backendRun ⟨[⟨"p", none⟩], []⟩
      [BackendOp.edit "p" "c1" "i1" 4, BackendOp.edit "p" "c2" "i2" 5,
       BackendOp.undo "v_4"]) "p") ∧
    pointersOk (backendRun ⟨[⟨"p", none⟩], []⟩
      [BackendOp.edit "p" "c1" "i1" 4, BackendOp.edit "p" "c2" "i2" 5,
       BackendOp.undo "v_4"]) :=
  ⟨⟨by decide,
    (C4_version_number_monotonicity.1 ⟨"groq", "llama-3.1-8b-instant", 2, []⟩
      [("a", "i", 4), ("b", "i", 5)] (by decide) rfl).1,
    (C4_version_number_monotonicity.1 ⟨"groq", "llama-3.1-8b-instant", 2, []⟩
      [("a", "i", 4), ("b", "i", 5)] (by decide) rfl).2 (by decide)⟩,
   C4_version_number_monotonicity.2.1 ⟨[⟨"p", none⟩], []⟩
     [BackendOp.edit "p" "c1" "i1" 4, BackendOp.edit "p" "c2" "i2" 5,
      BackendOp.undo "v_4"] "p" rfl,
   C4_version_number_monotonicity.2.2 ⟨[⟨"p", none⟩], []⟩
     [BackendOp.edit "p" "c1" "i1" 4, BackendOp.edit "p" "c2" "i2" 5,
      BackendOp.undo "v_4"]
     (by intro p hp; simp at hp; rw [hp]) (by decide)⟩

/-- Counterexample to C4 as stated: with `max_versions = 1`, three
same-second `_add_version` calls create versions numbered `1, 2, 2` —
after the FIFO trim the `len(history)+1` counter repeats, so the
per-post version numbers are not strictly monotonically increasing. -/
theorem C4_counterexample_number_reuse :
    addedNumbers ⟨"groq", "llama-3.1-8b-instant", 1, []⟩
      [("a", "i", 0), ("b", "i", 0), ("c", "i", 0)] = [1, 2, 2] ∧
    ¬ List.Chain' (· < ·) (addedNumbers ⟨"groq", "llama-3.1-8b-instant", 1, []⟩
      [("a", "i", 0), ("b", "i", 0), ("c", "i", 0)]) := by
  refine ⟨by decide, ?_⟩
  intro hch
  rw [show addedNumbers ⟨"groq", "llama-3.1-8b-instant", 1, []⟩
      [("a", "i", 0), ("b", "i", 0), ("c", "i", 0)] = [1, 2, 2] by decide] at hch
  rw [List.chain'_cons, List.chain'_cons] at hch
  omega

/-! ## Lemmas about the research retry loop and deduplication -/

theorem makeRequestGo_no_success (transport : Nat → Attempt) (mr : Nat)
    (h : ∀ n, attemptIsSuccess (transport n) = false) :
    ∀ (fuel attempt : Nat),
      makeRequestGo transport mr attempt fuel = Except.ok none ∨
      ∃ e, makeRequestGo transport mr attempt fuel = Except.error e := by
  intro fuel
  induction fuel with
  | zero => intro attempt; left; rfl
  | succ fuel ih =>
    intro attempt
    have hne : attemptIsSuccess (transport attempt) = false := h attempt
    cases htr : transport attempt with
    | rateLimited header =>
      cases header with
      | some s =>
        by_cases hp : pyIntParses s = true
        · by_cases ha : attempt < mr
          · have he : makeRequestGo transport mr attempt (fuel + 1) =
                makeRequestGo transport mr (attempt + 1) fuel := by
              simp only [makeRequestGo, htr, hp, if_true, ha]
            rw [he]; exact ih (attempt + 1)
          · left
            simp only [makeRequestGo, htr, hp, if_true]
            rw [if_neg ha]
        · right
          refine ⟨"ValueError", ?_⟩
          simp only [makeRequestGo, htr]
          rw [if_neg hp]
      | none =>
        by_cases ha : attempt < mr
        · have he : makeRequestGo transport mr attempt (fuel + 1) =
              makeRequestGo transport mr (attempt + 1) fuel := by
            simp only [makeRequestGo, htr, ha, if_true]
          rw [he]; exact ih (attempt + 1)
        · left
          simp only [makeRequestGo, htr]
          rw [if_neg ha]
    | timeout =>
      by_cases ha : attempt < mr
      · have he : makeRequestGo transport mr attempt (fuel + 1) =
            makeRequestGo transport mr (attempt + 1) fuel := by
          simp only [makeRequestGo, htr, ha, if_true]
        rw [he]; exact ih (attempt + 1)
      · left
        simp only [makeRequestGo, htr]
        rw [if_neg ha]
    | reqError msg =>
      by_cases ha : attempt < mr ∧ pyInStr "429" msg = true
      · have he : makeRequestGo transport mr attempt (fuel + 1) =
            makeRequestGo transport mr (attempt + 1) fuel := by
          simp only [makeRequestGo, htr]
          rw [if_pos ha]
        rw [he]; exact ih (attempt + 1)
      · left
        simp only [makeRequestGo, htr]
        rw [if_neg ha]
    | success data =>
      rw [htr] at hne
      simp [attemptIsSuccess] at hne

theorem dedupGo_sublist :
    ∀ (l : List Article) (su st : List String),
      (deduplicateGo l su st).Sublist l := by
  intro l
  induction l with
  | nil => intro su st; simp [deduplicateGo]
  | cons a rest ih =>
    intro su st
    simp only [deduplicateGo]
    split
    · exact (ih su st).trans (List.sublist_cons_self a rest)
    · split
      · exact (ih su st).trans (List.sublist_cons_self a rest)
      · exact List.Sublist.cons₂ a (ih _ _)

theorem dedupGo_mem :
    ∀ (l : List Article) (su st : List String) (b : Article),
      b ∈ deduplicateGo l su st →
      pyLower b.url ∉ su ∧
        ∀ t ∈ st, isSimilarString (pyLower b.title) t = false := by
  intro l
  induction l with
  | nil => intro su st b hb; simp [deduplicateGo] at hb
  | cons a rest ih =>
    intro su st b hb
    simp only [deduplicateGo] at hb
    split at hb
    · exact ih su st b hb
    · split at hb
      · exact ih su st b hb
      · rename_i hurl hsim
        rcases List.mem_cons.mp hb with h | h
        · subst h
          refine ⟨hurl, ?_⟩
          intro t ht
          have hfalse : (st.any fun seen_title =>
              isSimilarString (pyLower b.title) seen_title) = false :=
            Bool.eq_false_iff.mpr hsim
          have := List.any_eq_false.mp hfalse t ht
          exact Bool.eq_false_iff.mpr this
        · have hm := ih (su ++ [pyLower a.url]) (st ++ [pyLower a.title]) b h
          refine ⟨?_, ?_⟩
          · intro hc; exact hm.1 (List.mem_append_left _ hc)
          · intro t ht; exact hm.2 t (List.mem_append_left _ ht)

theorem dedupGo_pairwise :
    ∀ (l : List Article) (su st : List String),
      List.Pairwise (fun x y => pyLower y.url ≠ pyLower x.url ∧
        isSimilarString (pyLower y.title) (pyLower x.title) = false)
        (deduplicateGo l su st) := by
  intro l
  induction l with
  | nil => intro su st; exact List.Pairwise.nil
  | cons a rest ih =>
    intro su st
    simp only [deduplicateGo]
    split
    · exact ih su st
    · split
      · exact ih su st
      · refine List.Pairwise.cons ?_ (ih _ _)
        intro b hb
        have hm := dedupGo_mem rest (su ++ [pyLower a.url])
          (st ++ [pyLower a.title]) b hb
        refine ⟨?_, ?_⟩
        · intro hc
          exact hm.1 (by rw [hc]; exact List.mem_append_right _ (by simp))
        · exact hm.2 (pyLower a.title) (List.mem_append_right _ (by simp))

/-- C6: for all inputs and every behaviour of the HTTP transport in
which no attempt yields a successful response, `search_articles`
returns the empty list — rate limiting past the retry cap, timeouts,
request exceptions (including the `ValueError` escaping from a
malformed `retry-after` header, which the outer
`except Exception: return []` absorbs) all end in `[]`, never in an
exception. -/
theorem C6_search_failures_become_empty (transport : Nat → Attempt)
    (max_retries count : Nat)
    (h : ∀ n, attemptIsSuccess (transport n) = false) :
    searchArticles transport max_retries count = [] := by
  unfold searchArticles makeRequestWithRetry
  rcases makeRequestGo_no_success transport max_retries h (max_retries + 1) 0
    with he | ⟨e, he⟩ <;> rw [he]

/-- Witness for C6: a transport that always times out. -/
theorem C6_search_failures_become_empty_witness :
    (∀ n : Nat, attemptIsSuccess ((fun _ => Attempt.timeout) n) = false) ∧
    searchArticles (fun _ => Attempt.timeout) 3 5 = [] :=
  ⟨fun _ => rfl,
   C6_search_failures_become_empty (fun _ => Attempt.timeout) 3 5 (fun _ => rfl)⟩

/-- C7 (amended): deduplication keeps an article iff its lowercased URL
differs from every previously *kept* URL and its lowercased title is
not ≥ 0.8-Jaccard-similar to any previously *kept* title; hence the
result is an order-preserving sublist whose members are pairwise
non-duplicate, and it is computed before the truncation to `count`.
(The first of two similar articles wins only when the first was itself
kept: an article suppressed by an earlier URL collision never enters
the seen-titles set.) -/
theorem C7_deduplication (articles : List Article) :
    (deduplicateArticles articles).Sublist articles ∧
    List.Pairwise (fun x y => pyLower y.url ≠ pyLower x.url ∧
      isSimilarString (pyLower y.title) (pyLower x.title) = false)
      (deduplicateArticles articles) ∧
    (∀ (transport : Nat → Attempt) (max_retries count : Nat)
      (data : SearchData),
      makeRequestWithRetry transport max_retries = Except.ok (some data) →
      searchArticles transport max_retries count =
        (deduplicateArticles (extractArticles data)).take count) := by
  refine ⟨dedupGo_sublist articles [] [], dedupGo_pairwise articles [] [], ?_⟩
  intro transport max_retries count data hreq
  unfold searchArticles
  rw [hreq]

/-- Witness for C7: a transport answering immediately with two raw
results. -/
theorem C7_deduplication_witness :
    makeRequestWithRetry (fun _ => Attempt.success
      ⟨some [⟨some "t1", some "u1", some "s1"⟩,
             ⟨some "t2", some "u2", some "s2"⟩]⟩) 3 =
      Except.ok (some ⟨some [⟨some "t1", some "u1", some "s1"⟩,
             ⟨some "t2", some "u2", some "s2"⟩]⟩) ∧
    searchArticles (fun _ => Attempt.success
      ⟨some [⟨some "t1", some "u1", some "s1"⟩,
             ⟨some "t2", some "u2", some "s2"⟩]⟩) 3 1 =
      (deduplicateArticles (extractArticles
        ⟨some [⟨some "t1", some "u1", some "s1"⟩,
               ⟨some "t2", some "u2", some "s2"⟩]⟩)).take 1 :=
  ⟨rfl,
   (C7_deduplication []).2.2 (fun _ => Attempt.success
      ⟨some [⟨some "t1", some "u1", some "s1"⟩,
             ⟨some "t2", some "u2", some "s2"⟩]⟩) 3 1
     ⟨some [⟨some "t1", some "u1", some "s1"⟩,
            ⟨some "t2", some "u2", some "s2"⟩]⟩ rfl⟩

/-- Counterexample to C7 as stated: the second and third articles have
identical titles (word overlap 100% ≥ 80%), yet deduplication retains
the third (later) one, because the second was dropped for its URL
before its title ever entered the seen set — so "only the first of any
two ≥ 80%-similar articles is retained" fails. -/
theorem C7_counterexample_similar_title_kept :
    deduplicateArticles [⟨"x", "u", "s"⟩, ⟨"y", "u", "s"⟩, ⟨"y", "w", "s"⟩] =
      [⟨"x", "u", "s"⟩, ⟨"y", "w", "s"⟩] ∧
    isSimilarString (pyLower "y") (pyLower "y") = true ∧
    (⟨"y", "w", "s"⟩ : Article) ∈
      deduplicateArticles [⟨"x", "u", "s"⟩, ⟨"y", "u", "s"⟩, ⟨"y", "w", "s"⟩] := by
  refine ⟨by decide, by decide, ?_⟩
  rw [show deduplicateArticles [⟨"x", "u", "s"⟩, ⟨"y", "u", "s"⟩, ⟨"y", "w", "s"⟩] =
    [⟨"x", "u", "s"⟩, ⟨"y", "w", "s"⟩] by decide]
  simp

/-- C8 (amended): `_create_blog_prompt` builds one prompt string that
splices in the topic and a digest of at most 5 snippets — exactly the
first `min(len, 5)` research results ("Limit to top 5 sources"), each
contributing its title, URL and summary block to the digest. -/
theorem C8_prompt_embeds_topic_and_digest (topic : String)
    (rr : List ResearchSource) :
    createBlogPrompt topic rr =
      promptPrefix ++ topic ++ promptMiddle ++
        String.intercalate "\n" (sourcesInfo rr) ++ promptSuffix ∧
    (sourcesInfo rr).length ≤ 5 ∧
    (sourcesInfo rr).length = min rr.length 5 ∧
    (∀ k : Nat, k < (sourcesInfo rr).length →
      (sourcesInfo rr).getD k "" =
        sourceInfoLine (k + 1) (rr.getD k ⟨none, none, none⟩)) := by
  have hlen : (sourcesInfo rr).length = min rr.length 5 := by
    simp only [sourcesInfo, List.length_map, List.enum_length, List.length_take]
    omega
  refine ⟨rfl, by omega, hlen, ?_⟩
  intro k hk
  have hk5 : k < min rr.length 5 := by rw [← hlen]; exact hk
  have hkr : k < rr.length := by omega
  rw [List.getD_eq_getElem _ _ hk, List.getD_eq_getElem _ _ hkr]
  simp only [sourcesInfo, List.getElem_map, List.getElem_enum, List.getElem_take]

set_option maxRecDepth 4000 in
/-- Witness for C8: a two-source digest, second entry inspected. -/
theorem C8_prompt_embeds_topic_and_digest_witness :
    createBlogPrompt "t" [⟨some "T1", some "U1", some "S1"⟩,
        ⟨some "T2", some "U2", some "S2"⟩] =
      promptPrefix ++ "t" ++ promptMiddle ++
        String.intercalate "\n" (sourcesInfo [⟨some "T1", some "U1", some "S1"⟩,
          ⟨some "T2", some "U2", some "S2"⟩]) ++ promptSuffix ∧
    (sourcesInfo [⟨some "T1", some "U1", some "S1"⟩,
        ⟨some "T2", some "U2", some "S2"⟩]).length = 2 ∧
    (sourcesInfo [⟨some "T1", some "U1", some "S1"⟩,
        ⟨some "T2", some "U2", some "S2"⟩]).getD 1 "" =
      sourceInfoLine 2 ⟨some "T2", some "U2", some "S2"⟩ :=
  ⟨(C8_prompt_embeds_topic_and_digest "t" [⟨some "T1", some "U1", some "S1"⟩,
      ⟨some "T2", some "U2", some "S2"⟩]).1,
   by decide,
   (C8_prompt_embeds_topic_and_digest "t" [⟨some "T1", some "U1", some "S1"⟩,
      ⟨some "T2", some "U2", some "S2"⟩]).2.2.2 1 (by decide)⟩

set_option maxRecDepth 10000 in
/-- Counterexample to C8 as stated: with four research results the
digest spliced into the prompt holds four snippets (the code truncates
at `[:5]`, not at 3): the prompt contains the fourth numbered snippet
`4. **T4**`, and the digest length is 4 > 3. -/
theorem C8_counterexample_four_snippets :
    (sourcesInfo [⟨some "T1", some "U1", some "S1"⟩,
        ⟨some "T2", some "U2", some "S2"⟩, ⟨some "T3", some "U3", some "S3"⟩,
        ⟨some "T4", some "U4", some "S4"⟩]).length = 4 ∧
    ¬ ((sourcesInfo [⟨some "T1", some "U1", some "S1"⟩,
        ⟨some "T2", some "U2", some "S2"⟩, ⟨some "T3", some "U3", some "S3"⟩,
        ⟨some "T4", some "U4", some "S4"⟩]).length ≤ 3) ∧
    pyInStr "4. **T4**" (createBlogPrompt "quantum computing"
      [⟨some "T1", some "U1", some "S1"⟩, ⟨some "T2", some "U2", some "S2"⟩,
       ⟨some "T3", some "U3", some "S3"⟩,
       ⟨some "T4", some "U4", some "S4"⟩]) = true := by
  refine ⟨by decide, by decide, by decide⟩

/-! ## Lemmas about the shape of `unified_diff` output -/

theorem opLines_shape (a b : List String) (c : Opcode) (s : String)
    (hs : s ∈ opLines a b c) :
    (∃ l ∈ a, s = " " ++ l) ∨ (∃ l ∈ a, s = "-" ++ l) ∨
    (∃ l ∈ b, s = "+" ++ l) := by
  obtain ⟨tag, i1, i2, j1, j2⟩ := c
  unfold opLines at hs
  have hmema : ∀ l : String, l ∈ pySlice a i1 i2 → l ∈ a := fun l hl =>
    List.mem_of_mem_take (List.mem_of_mem_drop hl)
  have hmemb : ∀ l : String, l ∈ pySlice b j1 j2 → l ∈ b := fun l hl =>
    List.mem_of_mem_take (List.mem_of_mem_drop hl)
  cases tag with
  | equal =>
    obtain ⟨l, hl, rfl⟩ := List.mem_map.mp hs
    exact Or.inl ⟨l, hmema l hl, rfl⟩
  | delete =>
    obtain ⟨l, hl, rfl⟩ := List.mem_map.mp hs
    exact Or.inr (Or.inl ⟨l, hmema l hl, rfl⟩)
  | insert =>
    obtain ⟨l, hl, rfl⟩ := List.mem_map.mp hs
    exact Or.inr (Or.inr ⟨l, hmemb l hl, rfl⟩)
  | replace =>
    rcases List.mem_append.mp hs with h | h
    · obtain ⟨l, hl, rfl⟩ := List.mem_map.mp h
      exact Or.inr (Or.inl ⟨l, hmema l hl, rfl⟩)
    · obtain ⟨l, hl, rfl⟩ := List.mem_map.mp h
      exact Or.inr (Or.inr ⟨l, hmemb l hl, rfl⟩)

theorem unifiedDiff_line_shape (a b : List String) (n : Nat) (s : String)
    (hs : s ∈ unifiedDiff a b "" "" "" "" n "\n") :
    s = "--- \n" ∨ s = "+++ \n" ∨ (∃ x, s = "@@ -" ++ x) ∨
    (∃ l ∈ a, s = " " ++ l) ∨ (∃ l ∈ a, s = "-" ++ l) ∨
    (∃ l ∈ b, s = "+" ++ l) := by
  unfold unifiedDiff at hs
  cases hg : getGroupedOpcodes a b n with
  | nil => rw [hg] at hs; cases hs
  | cons g gs =>
    rw [hg] at hs
    simp only [ne_eq, not_true_eq_false, if_false, List.mem_cons,
      List.mem_flatMap] at hs
    rcases hs with h1 | h2 | ⟨g2, _, hsg⟩
    · left
      rw [h1]; decide
    · right; left
      rw [h2]; decide
    · unfold hunkLines at hsg
      rcases List.mem_cons.mp hsg with hhdr | hbody
      · right; right; left
        refine ⟨formatRangeUnified (g2.headD default).i1 (g2.getLastD default).i2 ++
          (" +" ++ (formatRangeUnified (g2.headD default).j1 (g2.getLastD default).j2 ++
            (" @@" ++ "\n"))), ?_⟩
        rw [hhdr]
        rw [String.append_assoc, String.append_assoc, String.append_assoc,
          String.append_assoc]
      · obtain ⟨c, _, hsc⟩ := List.mem_flatMap.mp hbody
        rcases opLines_shape a b c s hsc with h | h | h
        · exact Or.inr (Or.inr (Or.inr (Or.inl h)))
        · exact Or.inr (Or.inr (Or.inr (Or.inr (Or.inl h))))
        · exact Or.inr (Or.inr (Or.inr (Or.inr (Or.inr h))))

theorem pyStartsWith_append_first (x : String) (c : Char) (rest : List Char)
    (p : Char) (hx : x.data = c :: rest) :
    pyStartsWith x (String.singleton p) = (p == c) := by
  simp [pyStartsWith, hx, String.singleton, List.isPrefixOf]

/-- C5 (amended): the word-count delta of the changes summary equals
`len(edited.split()) - len(original.split())` exactly and signed; and
provided no line of the edited text begins with `++` and no line of the
original begins with `--`, the summary's added/removed counts equal the
number of added/removed lines of the unified diff. (The code filters
diff lines by the prefixes `+++`/`---` to drop the two file-header
lines, so an added content line that itself starts with `++`, which the
diff renders as `+++...`, would be miscounted.) -/
theorem C5_changes_summary_counts (original edited : String)
    (ha : ∀ l ∈ pySplitlines false original, pyStartsWith l "--" = false)
    (hb : ∀ l ∈ pySplitlines false edited, pyStartsWith l "++" = false) :
    (changesCounts original edited).word_change =
      ((pySplit edited).length : Int) - ((pySplit original).length : Int) ∧
    (changesCounts original edited).additions = specAddedCount original edited ∧
    (changesCounts original edited).deletions = specRemovedCount original edited := by
  refine ⟨rfl, ?_, ?_⟩
  · show (unifiedDiff (pySplitlines false original) (pySplitlines false edited)
        "" "" "" "" 0 "\n").countP
        (fun line => pyStartsWith line "+" && !(pyStartsWith line "+++")) =
      (unifiedDiff (pySplitlines false original) (pySplitlines false edited)
        "" "" "" "" 0 "\n").countP
        (fun line => pyStartsWith line "+" && !(line == "+++ \n"))
    apply List.countP_congr
    intro s hs
    rcases unifiedDiff_line_shape _ _ 0 s hs with h | h | ⟨x, h⟩ | ⟨l, hl, h⟩ |
      ⟨l, hl, h⟩ | ⟨l, hl, h⟩
    · subst h; decide
    · subst h; decide
    · subst h
      have hfalse : pyStartsWith ("@@ -" ++ x) "+" = false := by
        simp [pyStartsWith, String.data_append, List.isPrefixOf]
      rw [hfalse]; simp
    · subst h
      have hfalse : pyStartsWith (" " ++ l) "+" = false := by
        simp [pyStartsWith, String.data_append, List.isPrefixOf]
      rw [hfalse]; simp
    · subst h
      have hfalse : pyStartsWith ("-" ++ l) "+" = false := by
        simp [pyStartsWith, String.data_append, List.isPrefixOf]
      rw [hfalse]; simp
    · subst h
      have h1 : pyStartsWith ("+" ++ l) "+" = true := by
        simp [pyStartsWith, String.data_append, List.isPrefixOf]
      have h2 : pyStartsWith ("+" ++ l) "+++" = pyStartsWith l "++" := by
        simp [pyStartsWith, String.data_append, List.isPrefixOf]
      have h3 := hb l hl
      have h4 : ("+" ++ l : String) ≠ "+++ \n" := by
        intro hEq
        have hdata := congrArg String.data hEq
        simp only [String.data_append] at hdata
        have hld : l.data = ['+', '+', ' ', '\n'] := by
          simpa using hdata
        have : pyStartsWith l "++" = true := by
          simp [pyStartsWith, hld, List.isPrefixOf]
        rw [h3] at this
        cases this
      rw [h1, h2, h3]
      have h5 : (("+" ++ l : String) == "+++ \n") = false :=
        beq_eq_false_iff_ne.mpr h4
      rw [h5]
  · show (unifiedDiff (pySplitlines false original) (pySplitlines false edited)
        "" "" "" "" 0 "\n").countP
        (fun line => pyStartsWith line "-" && !(pyStartsWith line "---")) =
      (unifiedDiff (pySplitlines false original) (pySplitlines false edited)
        "" "" "" "" 0 "\n").countP
        (fun line => pyStartsWith line "-" && !(line == "--- \n"))
    apply List.countP_congr
    intro s hs
    rcases unifiedDiff_line_shape _ _ 0 s hs with h | h | ⟨x, h⟩ | ⟨l, hl, h⟩ |
      ⟨l, hl, h⟩ | ⟨l, hl, h⟩
    · subst h; decide
    · subst h; decide
    · subst h
      have hfalse : pyStartsWith ("@@ -" ++ x) "-" = false := by
        simp [pyStartsWith, String.data_append, List.isPrefixOf]
      rw [hfalse]; simp
    · subst h
      have hfalse : pyStartsWith (" " ++ l) "-" = false := by
        simp [pyStartsWith, String.data_append, List.isPrefixOf]
      rw [hfalse]; simp
    · subst h
      have h1 : pyStartsWith ("-" ++ l) "-" = true := by
        simp [pyStartsWith, String.data_append, List.isPrefixOf]
      have h2 : pyStartsWith ("-" ++ l) "---" = pyStartsWith l "--" := by
        simp [pyStartsWith, String.data_append, List.isPrefixOf]
      have h3 := ha l hl
      have h4 : ("-" ++ l : String) ≠ "--- \n" := by
        intro hEq
        have hdata := congrArg String.data hEq
        simp only [String.data_append] at hdata
        have hld : l.data = ['-', '-', ' ', '\n'] := by
          simpa using hdata
        have : pyStartsWith l "--" = true := by
          simp [pyStartsWith, hld, List.isPrefixOf]
        rw [h3] at this
        cases this
      rw [h1, h2, h3]
      have h5 : (("-" ++ l : String) == "--- \n") = false :=
        beq_eq_false_iff_ne.mpr h4
      rw [h5]
    · subst h
      have hfalse : pyStartsWith ("+" ++ l) "-" = false := by
        simp [pyStartsWith, String.data_append, List.isPrefixOf]
      rw [hfalse]; simp

/-- Witness for C5: a one-line replacement. -/
theorem C5_changes_summary_counts_witness :
    (∀ l ∈ pySplitlines false "a\nb", pyStartsWith l "--" = false) ∧
    (∀ l ∈ pySplitlines false "a\nc", pyStartsWith l "++" = false) ∧
    (changesCounts "a\nb" "a\nc").word_change =
      ((pySplit "a\nc").length : Int) - ((pySplit "a\nb").length : Int) ∧
    (changesCounts "a\nb" "a\nc").additions = specAddedCount "a\nb" "a\nc" ∧
    (changesCounts "a\nb" "a\nc").deletions = specRemovedCount "a\nb" "a\nc" :=
  ⟨by decide, by decide,
   (C5_changes_summary_counts "a\nb" "a\nc" (by decide) (by decide)).1,
   (C5_changes_summary_counts "a\nb" "a\nc" (by decide) (by decide)).2.1,
   (C5_changes_summary_counts "a\nb" "a\nc" (by decide) (by decide)).2.2⟩

/-- Counterexample to C5 as stated: replacing the line `x` by the line
`++x` produces the diff line `+++x`, which the summary's
`startswith('+++')` filter wrongly discards — the summary reports 0
added lines although the unified diff contains exactly one added line. -/
theorem C5_counterexample_plus_prefixed_line :
    (changesCounts "x" "++x").additions = 0 ∧
    specAddedCount "x" "++x" = 1 ∧
    (changesCounts "x" "++x").additions ≠ specAddedCount "x" "++x" := by
  decide

/-! ## Lemmas about serialized numbers -/

theorem digitChar_isDigit (m : Nat) : (digitChar m).isDigit = true := by
  unfold digitChar
  have h : m % 10 < 10 := Nat.mod_lt _ (by omega)
  generalize m % 10 = k at h
  interval_cases k <;> decide

theorem digitVal_digitChar (m : Nat) : digitVal (digitChar m) = m % 10 := by
  unfold digitChar digitVal
  have h : m % 10 < 10 := Nat.mod_lt _ (by omega)
  generalize m % 10 = k at h ⊢
  interval_cases k <;> decide

theorem natToCharsGo_ne_nil (fuel n : Nat) : natToCharsGo fuel n ≠ [] := by
  cases fuel with
  | zero => simp [natToCharsGo]
  | succ fuel =>
    unfold natToCharsGo
    split
    · simp
    · simp

theorem natToCharsGo_all_digits (fuel : Nat) :
    ∀ n, ∀ c ∈ natToCharsGo fuel n, c.isDigit = true := by
  induction fuel with
  | zero =>
    intro n c hc
    simp only [natToCharsGo, List.mem_singleton] at hc
    rw [hc]; exact digitChar_isDigit n
  | succ fuel ih =>
    intro n c hc
    unfold natToCharsGo at hc
    split at hc
    · simp only [List.mem_singleton] at hc
      rw [hc]; exact digitChar_isDigit n
    · rcases List.mem_append.mp hc with h | h
      · exact ih (n / 10) c h
      · simp only [List.mem_singleton] at h
        rw [h]; exact digitChar_isDigit (n % 10)

theorem natToCharsGo_head (fuel : Nat) :
    ∀ n, ∃ c t, natToCharsGo fuel n = c :: t ∧ c.isDigit = true := by
  intro n
  cases he : natToCharsGo fuel n with
  | nil => exact absurd he (natToCharsGo_ne_nil fuel n)
  | cons c t =>
    refine ⟨c, t, rfl, ?_⟩
    exact natToCharsGo_all_digits fuel n c (by rw [he]; simp)

theorem natFromDigits_append (xs : List Char) (d : Char) :
    natFromDigits (xs ++ [d]) = natFromDigits xs * 10 + digitVal d := by
  unfold natFromDigits
  rw [List.foldl_append]
  rfl

theorem natFromDigits_natToCharsGo (fuel : Nat) :
    ∀ n, n ≤ fuel → natFromDigits (natToCharsGo fuel n) = n := by
  induction fuel with
  | zero =>
    intro n hn
    have h0 : n = 0 := by omega
    subst h0
    decide
  | succ fuel ih =>
    intro n hn
    unfold natToCharsGo
    split
    · rename_i h10
      show natFromDigits [digitChar n] = n
      unfold natFromDigits
      simp only [List.foldl_cons, List.foldl_nil]
      rw [show (0 : Nat) * 10 + digitVal (digitChar n) = digitVal (digitChar n)
        by omega]
      rw [digitVal_digitChar]
      omega
    · rename_i h10
      rw [natFromDigits_append]
      have hlt : n / 10 ≤ fuel := by
        have : n / 10 < n := Nat.div_lt_self (by omega) (by omega)
        omega
      rw [ih (n / 10) hlt, digitVal_digitChar]
      omega

theorem takeWhile_all_append {p : Char → Bool} :
    ∀ (xs rest : List Char), (∀ c ∈ xs, p c = true) →
    (∀ c, rest.head? = some c → p c = false) →
    (xs ++ rest).takeWhile p = xs ∧ (xs ++ rest).dropWhile p = rest := by
  intro xs
  induction xs with
  | nil =>
    intro rest _ hrest
    cases rest with
    | nil => exact ⟨rfl, rfl⟩
    | cons c r =>
      have := hrest c rfl
      constructor
      · simp [List.takeWhile_cons, this]
      · simp [List.dropWhile_cons, this]
  | cons x xs ih =>
    intro rest hall hrest
    have hx : p x = true := hall x (by simp)
    have hih := ih rest (fun c hc => hall c (by simp [hc])) hrest
    constructor
    · simp only [List.cons_append, List.takeWhile_cons, hx, if_true]
      rw [hih.1]
    · simp only [List.cons_append, List.dropWhile_cons, hx, if_true]
      rw [hih.2]

theorem parseIntTail_natToChars (n : Nat) (rest : List Char)
    (hrest : nonNumTail rest) :
    parseIntTail (natToChars n ++ rest) = some (n, rest) := by
  unfold parseIntTail
  have hall := natToCharsGo_all_digits n n
  have htw := takeWhile_all_append (natToChars n) rest hall
    (fun c hc => (hrest c hc).1)
  rw [htw.1, htw.2]
  simp only [List.isEmpty_eq_true]
  rw [if_neg (show ¬ natToChars n = [] from natToCharsGo_ne_nil n n)]
  have hval : natFromDigits (natToChars n) = n :=
    natFromDigits_natToCharsGo n n (Nat.le_refl n)
  cases rest with
  | nil => simp [hval]
  | cons c r =>
    have hc := hrest c rfl
    split
    · rename_i heq
      exact absurd (List.head_eq_of_cons_eq heq.symm).symm hc.2.1
    · rename_i heq
      exact absurd (List.head_eq_of_cons_eq heq.symm).symm hc.2.2.1
    · rename_i heq
      exact absurd (List.head_eq_of_cons_eq heq.symm).symm hc.2.2.2
    · simp [hval]

/-! ## Lemmas about whitespace skipping and value dispatch -/

theorem skipWs_cons_of_not_ws (c : Char) (r : List Char)
    (h : isJsonWs c = false) : skipWs (c :: r) = c :: r := by
  simp [skipWs, List.dropWhile_cons, h]

theorem isDigit_toNat (c : Char) (h : c.isDigit = true) :
    48 ≤ c.toNat ∧ c.toNat ≤ 57 := by
  simp only [Char.isDigit, Bool.and_eq_true, decide_eq_true_eq] at h
  obtain ⟨h1, h2⟩ := h
  exact ⟨h1, h2⟩

theorem headOkJson_not_ws (c : Char) (h : headOkJson c = true) :
    isJsonWs c = false := by
  unfold headOkJson at h
  simp only [Bool.or_eq_true, decide_eq_true_eq] at h
  simp only [isJsonWs, Bool.or_eq_false_iff, decide_eq_false_iff_not]
  rcases h with ((((((h | h) | h) | h) | h) | h) | h) | h
  · subst h; refine ⟨⟨⟨by decide, by decide⟩, by decide⟩, by decide⟩
  · subst h; refine ⟨⟨⟨by decide, by decide⟩, by decide⟩, by decide⟩
  · subst h; refine ⟨⟨⟨by decide, by decide⟩, by decide⟩, by decide⟩
  · subst h; refine ⟨⟨⟨by decide, by decide⟩, by decide⟩, by decide⟩
  · subst h; refine ⟨⟨⟨by decide, by decide⟩, by decide⟩, by decide⟩
  · subst h; refine ⟨⟨⟨by decide, by decide⟩, by decide⟩, by decide⟩
  · subst h; refine ⟨⟨⟨by decide, by decide⟩, by decide⟩, by decide⟩
  · have hd := isDigit_toNat c h
    refine ⟨⟨⟨?_, ?_⟩, ?_⟩, ?_⟩ <;>
      (intro he; subst he; revert hd; decide)

theorem headOkJson_ne_rbracket (c : Char) (h : headOkJson c = true) :
    ¬ c = ']' := by
  unfold headOkJson at h
  simp only [Bool.or_eq_true, decide_eq_true_eq] at h
  rcases h with ((((((h | h) | h) | h) | h) | h) | h) | h
  all_goals first
    | (subst h; decide)
    | (intro he
       subst he
       revert h
       decide)

theorem headOkJson_ne_rbrace (c : Char) (h : headOkJson c = true) :
    ¬ c = Char.ofNat 125 := by
  unfold headOkJson at h
  simp only [Bool.or_eq_true, decide_eq_true_eq] at h
  rcases h with ((((((h | h) | h) | h) | h) | h) | h) | h
  all_goals first
    | (subst h; decide)
    | (intro he
       subst he
       revert h
       decide)

/-! ## Round trip of the string escaping -/

theorem hexVal_hexDigitChar : ∀ d < 16, hexVal (hexDigitChar d) = some d := by
  decide

theorem escapeChar_length_pos (c : Char) : 1 ≤ (escapeChar c).length := by
  unfold escapeChar
  repeat' split
  all_goals simp

theorem flatMap_escape_length (cs : List Char) :
    cs.length ≤ (cs.flatMap escapeChar).length := by
  induction cs with
  | nil => simp
  | cons c cs ih =>
    rw [List.flatMap_cons, List.length_append, List.length_cons]
    have := escapeChar_length_pos c
    omega

theorem parseStringChars_catchall (fuel : Nat) (c : Char) (r : List Char)
    (h1 : ¬ c = '"') (h2 : ¬ c = '\\') :
    parseStringChars (fuel + 1) (c :: r) =
      if c.toNat < 0x20 then none
      else (parseStringChars fuel r).map (fun p => (c :: p.1, p.2)) := by
  rw [parseStringChars.eq_def]
  split
  · rename_i heq; omega
  · rename_i heq; simp at heq
  · rename_i heq
    exact absurd (List.head_eq_of_cons_eq heq) h1
  · rename_i heq
    exact absurd (List.head_eq_of_cons_eq heq) h2
  · rename_i heq
    exact absurd (List.head_eq_of_cons_eq heq) h2
  · rename_i heq
    exact absurd (List.head_eq_of_cons_eq heq) h2
  · rename_i hfe heq
    injection heq with hc hr
    subst hc
    subst hr
    injection hfe with hf
    subst hf
    rfl

theorem char_not_surrogate (c : Char) :
    c.toNat < 0xD800 ∨ (0xDFFF < c.toNat ∧ c.toNat < 0x110000) := by
  have h := c.valid
  unfold UInt32.isValidChar Nat.isValidChar at h
  exact h

theorem parseStringChars_u_plain (fuel : Nat) (a1 a2 a3 a4 : Char)
    (v1 v2 v3 v4 : Nat) (T : List Char)
    (h1 : hexVal a1 = some v1) (h2 : hexVal a2 = some v2)
    (h3 : hexVal a3 = some v3) (h4 : hexVal a4 = some v4)
    (hns : ¬ (0xD800 ≤ ((v1 * 16 + v2) * 16 + v3) * 16 + v4 ∧
      ((v1 * 16 + v2) * 16 + v3) * 16 + v4 ≤ 0xDBFF)) :
    parseStringChars (fuel + 1) ('\\' :: 'u' :: a1 :: a2 :: a3 :: a4 :: T) =
      (parseStringChars fuel T).map (fun p =>
        (Char.ofNat (((v1 * 16 + v2) * 16 + v3) * 16 + v4) :: p.1, p.2)) := by
  simp only [parseStringChars, h1, h2, h3, h4]
  rw [if_neg hns]

theorem parseStringChars_u_pair (fuel : Nat) (a1 a2 a3 a4 b1 b2 b3 b4 : Char)
    (v1 v2 v3 v4 w1 w2 w3 w4 : Nat) (T : List Char)
    (h1 : hexVal a1 = some v1) (h2 : hexVal a2 = some v2)
    (h3 : hexVal a3 = some v3) (h4 : hexVal a4 = some v4)
    (g1 : hexVal b1 = some w1) (g2 : hexVal b2 = some w2)
    (g3 : hexVal b3 = some w3) (g4 : hexVal b4 = some w4)
    (hhi : 0xD800 ≤ ((v1 * 16 + v2) * 16 + v3) * 16 + v4 ∧
      ((v1 * 16 + v2) * 16 + v3) * 16 + v4 ≤ 0xDBFF)
    (hlo : 0xDC00 ≤ ((w1 * 16 + w2) * 16 + w3) * 16 + w4 ∧
      ((w1 * 16 + w2) * 16 + w3) * 16 + w4 ≤ 0xDFFF) :
    parseStringChars (fuel + 1)
      ('\\' :: 'u' :: a1 :: a2 :: a3 :: a4 ::
        '\\' :: 'u' :: b1 :: b2 :: b3 :: b4 :: T) =
      (parseStringChars fuel T).map (fun p =>
        (Char.ofNat (0x10000 +
          (((v1 * 16 + v2) * 16 + v3) * 16 + v4 - 0xD800) * 0x400 +
          (((w1 * 16 + w2) * 16 + w3) * 16 + w4 - 0xDC00)) :: p.1, p.2)) := by
  simp only [parseStringChars, h1, h2, h3, h4]
  rw [if_pos hhi]
  rw [if_pos (show List.take 2 ('\\' :: 'u' :: b1 :: b2 :: b3 :: b4 :: T) =
    ['\\', 'u'] from rfl)]
  simp only [List.getD_cons_succ, List.getD_cons_zero, g1, g2, g3, g4]
  rw [if_pos hlo]
  rfl

theorem parseStringChars_escape (cs : List Char) :
    ∀ (fuel : Nat) (rest : List Char), cs.length < fuel →
    parseStringChars fuel (cs.flatMap escapeChar ++ '"' :: rest) =
      some (cs, rest) := by
  induction cs with
  | nil =>
    intro fuel rest hf
    cases fuel with
    | zero => omega
    | succ fuel => rfl
  | cons c cs ih =>
    intro fuel rest hf
    cases fuel with
    | zero => simp at hf
    | succ fuel =>
      have hf2 : cs.length < fuel := by
        simp only [List.length_cons] at hf; omega
      have hihT := ih fuel rest hf2
      rw [List.flatMap_cons, List.append_assoc]
      by_cases h1 : c = '"'
      · subst h1
        show parseStringChars (fuel + 1)
          ('\\' :: '"' :: (cs.flatMap escapeChar ++ '"' :: rest)) = _
        rw [show parseStringChars (fuel + 1)
            ('\\' :: '"' :: (cs.flatMap escapeChar ++ '"' :: rest)) =
          (parseStringChars fuel (cs.flatMap escapeChar ++ '"' :: rest)).map
            (fun p => ('"' :: p.1, p.2)) from rfl]
        rw [hihT]; rfl
      · by_cases h2 : c = '\\'
        · subst h2
          show parseStringChars (fuel + 1)
            ('\\' :: '\\' :: (cs.flatMap escapeChar ++ '"' :: rest)) = _
          rw [show parseStringChars (fuel + 1)
              ('\\' :: '\\' :: (cs.flatMap escapeChar ++ '"' :: rest)) =
            (parseStringChars fuel (cs.flatMap escapeChar ++ '"' :: rest)).map
              (fun p => ('\\' :: p.1, p.2)) from rfl]
          rw [hihT]; rfl
        · by_cases h3 : c = '\n'
          · subst h3
            show parseStringChars (fuel + 1)
              ('\\' :: 'n' :: (cs.flatMap escapeChar ++ '"' :: rest)) = _
            rw [show parseStringChars (fuel + 1)
                ('\\' :: 'n' :: (cs.flatMap escapeChar ++ '"' :: rest)) =
              (parseStringChars fuel (cs.flatMap escapeChar ++ '"' :: rest)).map
                (fun p => ('\n' :: p.1, p.2)) from rfl]
            rw [hihT]; rfl
          · by_cases h4 : c = '\t'
            · subst h4
              show parseStringChars (fuel + 1)
                ('\\' :: 't' :: (cs.flatMap escapeChar ++ '"' :: rest)) = _
              rw [show parseStringChars (fuel + 1)
                  ('\\' :: 't' :: (cs.flatMap escapeChar ++ '"' :: rest)) =
                (parseStringChars fuel (cs.flatMap escapeChar ++ '"' :: rest)).map
                  (fun p => ('\t' :: p.1, p.2)) from rfl]
              rw [hihT]; rfl
            · by_cases h5 : c = '\r'
              · subst h5
                show parseStringChars (fuel + 1)
                  ('\\' :: 'r' :: (cs.flatMap escapeChar ++ '"' :: rest)) = _
                rw [show parseStringChars (fuel + 1)
                    ('\\' :: 'r' :: (cs.flatMap escapeChar ++ '"' :: rest)) =
                  (parseStringChars fuel
                    (cs.flatMap escapeChar ++ '"' :: rest)).map
                    (fun p => ('\r' :: p.1, p.2)) from rfl]
                rw [hihT]; rfl
              · by_cases h6 : c = Char.ofNat 8
                · subst h6
                  show parseStringChars (fuel + 1)
                    ('\\' :: 'b' :: (cs.flatMap escapeChar ++ '"' :: rest)) = _
                  rw [show parseStringChars (fuel + 1)
                      ('\\' :: 'b' :: (cs.flatMap escapeChar ++ '"' :: rest)) =
                    (parseStringChars fuel
                      (cs.flatMap escapeChar ++ '"' :: rest)).map
                      (fun p => (Char.ofNat 8 :: p.1, p.2)) from rfl]
                  rw [hihT]; rfl
                · by_cases h7 : c = Char.ofNat 12
                  · subst h7
                    show parseStringChars (fuel + 1)
                      ('\\' :: 'f' :: (cs.flatMap escapeChar ++ '"' :: rest)) = _
                    rw [show parseStringChars (fuel + 1)
                        ('\\' :: 'f' :: (cs.flatMap escapeChar ++ '"' :: rest)) =
                      (parseStringChars fuel
                        (cs.flatMap escapeChar ++ '"' :: rest)).map
                        (fun p => (Char.ofNat 12 :: p.1, p.2)) from rfl]
                    rw [hihT]; rfl
                  · by_cases h8 : 0x20 ≤ c.toNat ∧ c.toNat ≤ 0x7e
                    · have hesc : escapeChar c = [c] := by
                        unfold escapeChar
                        rw [if_neg h1, if_neg h2, if_neg h3, if_neg h4,
                          if_neg h5, if_neg h6, if_neg h7, if_pos h8]
                      rw [hesc]
                      show parseStringChars (fuel + 1)
                        (c :: (cs.flatMap escapeChar ++ '"' :: rest)) = _
                      rw [parseStringChars_catchall fuel c _ h1 h2]
                      rw [if_neg (by omega)]
                      rw [hihT]
                      rfl
                    · by_cases h9 : c.toNat < 0x10000
                      · have hesc : escapeChar c =
                            '\\' :: 'u' :: hex4 c.toNat := by
                          unfold escapeChar
                          rw [if_neg h1, if_neg h2, if_neg h3, if_neg h4,
                            if_neg h5, if_neg h6, if_neg h7, if_neg h8,
                            if_pos h9]
                        rw [hesc]
                        show parseStringChars (fuel + 1)
                          ('\\' :: 'u' :: hexDigitChar (c.toNat / 4096 % 16) ::
                            hexDigitChar (c.toNat / 256 % 16) ::
                            hexDigitChar (c.toNat / 16 % 16) ::
                            hexDigitChar (c.toNat % 16) ::
                            (cs.flatMap escapeChar ++ '"' :: rest)) = _
                        have hns := char_not_surrogate c
                        rw [parseStringChars_u_plain fuel _ _ _ _ _ _ _ _ _
                          (hexVal_hexDigitChar _ (Nat.mod_lt _ (by omega)))
                          (hexVal_hexDigitChar _ (Nat.mod_lt _ (by omega)))
                          (hexVal_hexDigitChar _ (Nat.mod_lt _ (by omega)))
                          (hexVal_hexDigitChar _ (Nat.mod_lt _ (by omega)))
                          (by omega)]
                        rw [hihT]
                        have harith : ((c.toNat / 4096 % 16 * 16 +
                            c.toNat / 256 % 16) * 16 + c.toNat / 16 % 16) * 16 +
                            c.toNat % 16 = c.toNat := by omega
                        rw [harith, Char.ofNat_toNat]
                        rfl
                      · have hesc : escapeChar c =
                            ('\\' :: 'u' ::
                              hex4 (0xD800 + (c.toNat - 0x10000) / 0x400)) ++
                            ('\\' :: 'u' ::
                              hex4 (0xDC00 + (c.toNat - 0x10000) % 0x400)) := by
                          unfold escapeChar
                          rw [if_neg h1, if_neg h2, if_neg h3, if_neg h4,
                            if_neg h5, if_neg h6, if_neg h7, if_neg h8,
                            if_neg h9]
                        rw [hesc]
                        have hval := char_not_surrogate c
                        have hv : c.toNat - 0x10000 < 0x100000 := by omega
                        show parseStringChars (fuel + 1)
                          ('\\' :: 'u' ::
                            hexDigitChar ((0xD800 + (c.toNat - 0x10000) / 0x400) / 4096 % 16) ::
                            hexDigitChar ((0xD800 + (c.toNat - 0x10000) / 0x400) / 256 % 16) ::
                            hexDigitChar ((0xD800 + (c.toNat - 0x10000) / 0x400) / 16 % 16) ::
                            hexDigitChar ((0xD800 + (c.toNat - 0x10000) / 0x400) % 16) ::
                            '\\' :: 'u' ::
                            hexDigitChar ((0xDC00 + (c.toNat - 0x10000) % 0x400) / 4096 % 16) ::
                            hexDigitChar ((0xDC00 + (c.toNat - 0x10000) % 0x400) / 256 % 16) ::
                            hexDigitChar ((0xDC00 + (c.toNat - 0x10000) % 0x400) / 16 % 16) ::
                            hexDigitChar ((0xDC00 + (c.toNat - 0x10000) % 0x400) % 16) ::
                            (cs.flatMap escapeChar ++ '"' :: rest)) = _
                        rw [parseStringChars_u_pair fuel _ _ _ _ _ _ _ _ _ _ _ _
                          _ _ _ _ _
                          (hexVal_hexDigitChar _ (Nat.mod_lt _ (by omega)))
                          (hexVal_hexDigitChar _ (Nat.mod_lt _ (by omega)))
                          (hexVal_hexDigitChar _ (Nat.mod_lt _ (by omega)))
                          (hexVal_hexDigitChar _ (Nat.mod_lt _ (by omega)))
                          (hexVal_hexDigitChar _ (Nat.mod_lt _ (by omega)))
                          (hexVal_hexDigitChar _ (Nat.mod_lt _ (by omega)))
                          (hexVal_hexDigitChar _ (Nat.mod_lt _ (by omega)))
                          (hexVal_hexDigitChar _ (Nat.mod_lt _ (by omega)))
                          (by constructor <;> omega)
                          (by constructor <;> omega)]
                        rw [hihT]
                        have harith : 0x10000 +
                            ((((0xD800 + (c.toNat - 0x10000) / 0x400) / 4096 % 16 * 16 +
                              (0xD800 + (c.toNat - 0x10000) / 0x400) / 256 % 16) * 16 +
                              (0xD800 + (c.toNat - 0x10000) / 0x400) / 16 % 16) * 16 +
                              (0xD800 + (c.toNat - 0x10000) / 0x400) % 16 - 0xD800) * 0x400 +
                            ((((0xDC00 + (c.toNat - 0x10000) % 0x400) / 4096 % 16 * 16 +
                              (0xDC00 + (c.toNat - 0x10000) % 0x400) / 256 % 16) * 16 +
                              (0xDC00 + (c.toNat - 0x10000) % 0x400) / 16 % 16) * 16 +
                              (0xDC00 + (c.toNat - 0x10000) % 0x400) % 16 - 0xDC00) =
                            c.toNat := by omega
                        rw [harith, Char.ofNat_toNat]
                        rfl

/-! ## Lemmas for the round trip of whole JSON values -/

theorem nonNumTail_cons (c : Char) (rest : List Char)
    (h1 : c.isDigit = false) (h2 : c ≠ '.') (h3 : c ≠ 'e') (h4 : c ≠ 'E') :
    nonNumTail (c :: rest) := by
  intro d hd
  simp only [List.head?_cons, Option.some.injEq] at hd
  subst hd
  exact ⟨h1, h2, h3, h4⟩

theorem dumpsChars_head (v : PyJson) :
    ∃ c t, dumpsChars v = c :: t ∧ headOkJson c = true := by
  cases v with
  | null => exact ⟨'n', _, rfl, by decide⟩
  | bool b =>
    cases b with
    | false => exact ⟨'f', _, rfl, by decide⟩
    | true => exact ⟨'t', _, rfl, by decide⟩
  | int n =>
    show ∃ c t, intToChars n = c :: t ∧ headOkJson c = true
    unfold intToChars
    by_cases h : n < 0
    · rw [if_pos h]; exact ⟨'-', _, rfl, by decide⟩
    · rw [if_neg h]
      obtain ⟨c, t, he, hd⟩ := natToCharsGo_head n.toNat n.toNat
      refine ⟨c, t, he, ?_⟩
      unfold headOkJson
      simp [hd]
  | str s => exact ⟨'"', _, rfl, by decide⟩
  | arr l => exact ⟨'[', _, rfl, by decide⟩
  | obj l => exact ⟨Char.ofNat 123, _, rfl, by decide⟩

theorem dumpsElems_head (v : PyJson) (l : List PyJson) :
    ∃ c t, dumpsElems (v :: l) = c :: t ∧ headOkJson c = true := by
  obtain ⟨c, t, he, hok⟩ := dumpsChars_head v
  cases l with
  | nil => exact ⟨c, t, he, hok⟩
  | cons w ws =>
    refine ⟨c, t ++ ',' :: ' ' :: dumpsElems (w :: ws), ?_, hok⟩
    show dumpsChars v ++ ',' :: ' ' :: dumpsElems (w :: ws) = _
    rw [he]
    rfl

theorem dumpsMembers_head (k : String) (v : PyJson)
    (l : List (String × PyJson)) :
    ∃ t, dumpsMembers ((k, v) :: l) = '"' :: t := by
  cases l with
  | nil => exact ⟨_, rfl⟩
  | cons m ms => exact ⟨_, rfl⟩

theorem jsonFuel_pos (v : PyJson) : 1 ≤ jsonFuel v := by
  cases v <;> simp [jsonFuel]

theorem jsonFuelElems_pos (l : List PyJson) : 1 ≤ jsonFuelElems l := by
  cases l with
  | nil => simp [jsonFuelElems]
  | cons v vs =>
    show 1 ≤ 1 + jsonFuel v + jsonFuelElems vs
    omega

theorem jsonFuelMembers_pos (l : List (String × PyJson)) :
    1 ≤ jsonFuelMembers l := by
  cases l with
  | nil => simp [jsonFuelMembers]
  | cons m ms => obtain ⟨k, v⟩ := m; simp [jsonFuelMembers]; omega

theorem parseValue_ws_cons (fuel : Nat) (c : Char) (l : List Char)
    (h : isJsonWs c = true) :
    parseValue fuel (c :: l) = parseValue fuel l := by
  cases fuel with
  | zero => rfl
  | succ fuel =>
    simp only [parseValue]
    rw [show skipWs (c :: l) = skipWs l by simp [skipWs, List.dropWhile_cons, h]]

theorem parseElems_ws_cons (fuel : Nat) (c : Char) (l : List Char)
    (h : isJsonWs c = true) :
    parseElems fuel (c :: l) = parseElems fuel l := by
  cases fuel with
  | zero => rfl
  | succ fuel =>
    simp only [parseElems]
    rw [parseValue_ws_cons fuel c l h]

theorem parseMembers_ws_cons (fuel : Nat) (c : Char) (l : List Char)
    (h : isJsonWs c = true) :
    parseMembers fuel (c :: l) = parseMembers fuel l := by
  cases fuel with
  | zero => rfl
  | succ fuel =>
    simp only [parseMembers]
    rw [show skipWs (c :: l) = skipWs l by simp [skipWs, List.dropWhile_cons, h]]

theorem parseValue_digit_head (fuel : Nat) (c : Char) (r : List Char)
    (hd : c.isDigit = true) :
    parseValue (fuel + 1) (c :: r) =
      (parseIntTail (c :: r)).map (fun p => (PyJson.int (p.1 : Int), p.2)) := by
  have hws : isJsonWs c = false := by
    simp only [isJsonWs, Bool.or_eq_false_iff, decide_eq_false_iff_not]
    refine ⟨⟨⟨?_, ?_⟩, ?_⟩, ?_⟩ <;> (intro he; subst he; revert hd; decide)
  simp only [parseValue]
  rw [skipWs_cons_of_not_ws c r hws]
  show (if c = 'n' then _ else _) = _
  rw [if_neg (show ¬ c = 'n' from fun he => by subst he; revert hd; decide)]
  rw [if_neg (show ¬ c = 't' from fun he => by subst he; revert hd; decide)]
  rw [if_neg (show ¬ c = 'f' from fun he => by subst he; revert hd; decide)]
  rw [if_neg (show ¬ c = '"' from fun he => by subst he; revert hd; decide)]
  rw [if_neg (show ¬ c = '[' from fun he => by subst he; revert hd; decide)]
  rw [if_neg (show ¬ c = Char.ofNat 123 from fun he => by
    subst he; revert hd; decide)]
  rw [if_neg (show ¬ c = '-' from fun he => by subst he; revert hd; decide)]
  rw [if_pos hd]

mutual

theorem jsonFuel_le : ∀ v : PyJson, jsonFuel v ≤ 2 * (dumpsChars v).length
  | PyJson.null => by simp [jsonFuel, dumpsChars]
  | PyJson.bool true => by simp [jsonFuel, dumpsChars]
  | PyJson.bool false => by simp [jsonFuel, dumpsChars]
  | PyJson.int n => by
    have h := natToCharsGo_ne_nil n.toNat n.toNat
    have h2 := natToCharsGo_ne_nil n.natAbs n.natAbs
    simp only [jsonFuel, dumpsChars, intToChars]
    split
    · have : 1 ≤ (natToChars n.natAbs).length := by
        cases he : natToChars n.natAbs with
        | nil => exact absurd he h2
        | cons c t => simp
      simp only [List.length_cons]
      omega
    · have : 1 ≤ (natToChars n.toNat).length := by
        cases he : natToChars n.toNat with
        | nil => exact absurd he h
        | cons c t => simp
      omega
  | PyJson.str s => by
    show 1 ≤ 2 * ('"' :: (s.data.flatMap escapeChar ++ ['"'])).length
    simp only [List.length_cons]
    omega
  | PyJson.arr l => by
    have h := jsonFuelElems_le l
    simp only [jsonFuel, dumpsChars, List.length_cons, List.length_append,
      List.length_singleton]
    omega
  | PyJson.obj l => by
    have h := jsonFuelMembers_le l
    simp only [jsonFuel, dumpsChars, List.length_cons, List.length_append,
      List.length_singleton]
    omega

theorem jsonFuelElems_le : ∀ l : List PyJson,
    jsonFuelElems l ≤ 2 * (dumpsElems l).length + 2
  | [] => by simp [jsonFuelElems, dumpsElems]
  | [v] => by
    have h := jsonFuel_le v
    simp only [jsonFuelElems, dumpsElems]
    omega
  | v :: w :: rest => by
    have h1 := jsonFuel_le v
    have h2 := jsonFuelElems_le (w :: rest)
    show 1 + jsonFuel v + jsonFuelElems (w :: rest) ≤
      2 * (dumpsChars v ++ ',' :: ' ' :: dumpsElems (w :: rest)).length + 2
    simp only [List.length_append, List.length_cons]
    omega

theorem jsonFuelMembers_le : ∀ l : List (String × PyJson),
    jsonFuelMembers l ≤ 2 * (dumpsMembers l).length + 2
  | [] => by simp [jsonFuelMembers, dumpsMembers]
  | [(k, v)] => by
    have h := jsonFuel_le v
    show 1 + jsonFuel v + jsonFuelMembers [] ≤
      2 * (dumpsStrChars k ++ ':' :: ' ' :: dumpsChars v).length + 2
    simp only [List.length_append, List.length_cons, jsonFuelMembers]
    omega
  | (k, v) :: m :: rest => by
    have h1 := jsonFuel_le v
    have h2 := jsonFuelMembers_le (m :: rest)
    show 1 + jsonFuel v + jsonFuelMembers (m :: rest) ≤
      2 * (dumpsStrChars k ++ ':' :: ' ' :: dumpsChars v ++ ',' :: ' ' ::
        dumpsMembers (m :: rest)).length + 2
    simp only [List.length_append, List.length_cons]
    omega

end

theorem parseMembers_key (fuel : Nat) (kd Z : List Char)
    (hlen : kd.length < (kd.flatMap escapeChar ++ '"' :: Z).length + 1) :
    parseMembers (fuel + 1) ('"' :: (kd.flatMap escapeChar ++ '"' :: Z)) =
      (match skipWs Z with
      | ':' :: r3 =>
        match parseValue fuel r3 with
        | none => none
        | some (v, r4) =>
          match skipWs r4 with
          | ',' :: r5 => (parseMembers fuel r5).map
              (fun p => ((String.mk kd, v) :: p.1, p.2))
          | c :: r5 => if c = Char.ofNat 125 then some ([(String.mk kd, v)], r5)
              else none
          | [] => none
      | _ => none) := by
  simp only [parseMembers]
  rw [skipWs_cons_of_not_ws '"' _ (by decide)]
  show (match parseStringChars ((kd.flatMap escapeChar ++ '"' :: Z).length + 1)
      (kd.flatMap escapeChar ++ '"' :: Z) with
    | none => none
    | some (k, r2) =>
      match skipWs r2 with
      | ':' :: r3 =>
        match parseValue fuel r3 with
        | none => none
        | some (v, r4) =>
          match skipWs r4 with
          | ',' :: r5 => (parseMembers fuel r5).map
              (fun p : List (String × PyJson) × List Char =>
                ((String.mk k, v) :: p.1, p.2))
          | c :: r5 => if c = Char.ofNat 125 then some ([(String.mk k, v)], r5)
              else none
          | [] => none
      | _ => none) = _
  rw [parseStringChars_escape kd _ Z hlen]

/-- Joint round trip of `dumpsChars` through the three parsers, by
induction on the fuel. With enough fuel, parsing a serialized value
followed by any tail that cannot extend a number returns exactly the
value and the tail. -/
theorem parse_dumps (fuel : Nat) :
    (∀ (v : PyJson) (rest : List Char), jsonFuel v ≤ fuel → nonNumTail rest →
      parseValue fuel (dumpsChars v ++ rest) = some (v, rest)) ∧
    (∀ (v : PyJson) (l : List PyJson) (rest : List Char),
      jsonFuelElems (v :: l) ≤ fuel → nonNumTail rest →
      parseElems fuel (dumpsElems (v :: l) ++ ']' :: rest) =
        some (v :: l, rest)) ∧
    (∀ (k : String) (v : PyJson) (l : List (String × PyJson))
      (rest : List Char),
      jsonFuelMembers ((k, v) :: l) ≤ fuel → nonNumTail rest →
      parseMembers fuel (dumpsMembers ((k, v) :: l) ++ Char.ofNat 125 :: rest) =
        some ((k, v) :: l, rest)) := by
  induction fuel with
  | zero =>
    refine ⟨?_, ?_, ?_⟩
    · intro v rest hf _
      have := jsonFuel_pos v
      omega
    · intro v l rest hf _
      have := jsonFuelElems_pos (v :: l)
      omega
    · intro k v l rest hf _
      have := jsonFuelMembers_pos ((k, v) :: l)
      omega
  | succ fuel ih =>
    obtain ⟨ihV, ihE, ihM⟩ := ih
    refine ⟨?_, ?_, ?_⟩
    · intro v rest hf hrest
      cases v with
      | null => rfl
      | bool b => cases b <;> rfl
      | int n =>
        show parseValue (fuel + 1) (intToChars n ++ rest) = _
        by_cases h : n < 0
        · rw [show intToChars n = '-' :: natToChars n.natAbs from by
            unfold intToChars; rw [if_pos h]]
          show (parseIntTail (natToChars n.natAbs ++ rest)).map
            (fun p => (PyJson.int (-(p.1 : Int)), p.2)) = _
          rw [parseIntTail_natToChars n.natAbs rest hrest]
          show some (PyJson.int (-(n.natAbs : Int)), rest) = _
          have he : (-(n.natAbs : Int)) = n := by omega
          rw [he]
        · rw [show intToChars n = natToChars n.toNat from by
            unfold intToChars; rw [if_neg h]]
          obtain ⟨c, t, he, hd⟩ := natToCharsGo_head n.toNat n.toNat
          have hsplit : natToChars n.toNat ++ rest = c :: (t ++ rest) := by
            show natToCharsGo n.toNat n.toNat ++ rest = _
            rw [he]
            rfl
          rw [hsplit, parseValue_digit_head fuel c (t ++ rest) hd, ← hsplit,
            parseIntTail_natToChars n.toNat rest hrest]
          show some (PyJson.int (n.toNat : Int), rest) = _
          have he2 : ((n.toNat : Int)) = n := by omega
          rw [he2]
      | str s =>
        show parseValue (fuel + 1)
          (('"' :: (s.data.flatMap escapeChar ++ ['"'])) ++ rest) = _
        rw [show (('"' :: (s.data.flatMap escapeChar ++ ['"'])) ++ rest) =
          '"' :: (s.data.flatMap escapeChar ++ '"' :: rest) from by simp]
        show (parseStringChars
            ((s.data.flatMap escapeChar ++ '"' :: rest).length + 1)
            (s.data.flatMap escapeChar ++ '"' :: rest)).map
            (fun p => (PyJson.str (String.mk p.1), p.2)) = _
        rw [parseStringChars_escape s.data _ rest (by
          have := flatMap_escape_length s.data
          simp only [List.length_append, List.length_cons]
          omega)]
        rfl
      | arr l =>
        cases l with
        | nil => rfl
        | cons v l =>
          show parseValue (fuel + 1)
            (('[' :: (dumpsElems (v :: l) ++ [']'])) ++ rest) = _
          rw [show ('[' :: (dumpsElems (v :: l) ++ [']'])) ++ rest =
            '[' :: (dumpsElems (v :: l) ++ ']' :: rest) from by simp]
          obtain ⟨c, t, he, hok⟩ := dumpsElems_head v l
          have hsp : dumpsElems (v :: l) ++ ']' :: rest =
              c :: (t ++ ']' :: rest) := by
            rw [he]; rfl
          show (match skipWs (dumpsElems (v :: l) ++ ']' :: rest) with
            | ']' :: r2 => some (PyJson.arr [], r2)
            | _ => (parseElems fuel (dumpsElems (v :: l) ++ ']' :: rest)).map
                (fun p : List PyJson × List Char =>
                  (PyJson.arr p.1, p.2))) = _
          rw [hsp, skipWs_cons_of_not_ws c _ (headOkJson_not_ws c hok)]
          have hne := headOkJson_ne_rbracket c hok
          split
          · rename_i heq
            exact absurd (List.head_eq_of_cons_eq heq).symm (by
              intro hx; exact hne hx.symm)
          · rw [← hsp, ihE v l rest (by
              have hx : jsonFuel (PyJson.arr (v :: l)) =
                1 + jsonFuelElems (v :: l) := rfl
              omega) hrest]
            rfl
      | obj l =>
        cases l with
        | nil => rfl
        | cons m ms =>
          obtain ⟨k, v⟩ := m
          show parseValue (fuel + 1)
            ((Char.ofNat 123 ::
              (dumpsMembers ((k, v) :: ms) ++ [Char.ofNat 125])) ++ rest) = _
          rw [show (Char.ofNat 123 ::
              (dumpsMembers ((k, v) :: ms) ++ [Char.ofNat 125])) ++ rest =
            Char.ofNat 123 ::
              (dumpsMembers ((k, v) :: ms) ++ Char.ofNat 125 :: rest) from by
            simp]
          obtain ⟨t, he⟩ := dumpsMembers_head k v ms
          have hsp : dumpsMembers ((k, v) :: ms) ++ Char.ofNat 125 :: rest =
              '"' :: (t ++ Char.ofNat 125 :: rest) := by
            rw [he]; rfl
          rw [hsp]
          show (parseMembers fuel ('"' :: (t ++ Char.ofNat 125 :: rest))).map
            (fun p : List (String × PyJson) × List Char =>
              (PyJson.obj p.1, p.2)) = _
          rw [← hsp, ihM k v ms rest (by
            have hx : jsonFuel (PyJson.obj ((k, v) :: ms)) =
              1 + jsonFuelMembers ((k, v) :: ms) := rfl
            omega) hrest]
          rfl
    · intro v l rest hf hrest
      have hfv : jsonFuel v ≤ fuel := by
        have hx : jsonFuelElems (v :: l) =
          1 + jsonFuel v + jsonFuelElems l := rfl
        have := jsonFuelElems_pos l
        omega
      cases l with
      | nil =>
        have hnn : nonNumTail (']' :: rest) :=
          nonNumTail_cons ']' rest (by decide) (by decide) (by decide)
            (by decide)
        simp only [parseElems]
        rw [show dumpsElems [v] ++ ']' :: rest = dumpsChars v ++ ']' :: rest
          from rfl]
        rw [ihV v (']' :: rest) hfv hnn]
        rfl
      | cons w ws =>
        have hnn : nonNumTail (',' :: ' ' ::
            (dumpsElems (w :: ws) ++ ']' :: rest)) :=
          nonNumTail_cons ',' _ (by decide) (by decide) (by decide) (by decide)
        simp only [parseElems]
        rw [show dumpsElems (v :: w :: ws) ++ ']' :: rest =
          dumpsChars v ++ (',' :: ' ' ::
            (dumpsElems (w :: ws) ++ ']' :: rest)) from by
          show (dumpsChars v ++ ',' :: ' ' :: dumpsElems (w :: ws)) ++
            ']' :: rest = _
          simp]
        rw [ihV v _ hfv hnn]
        show (parseElems fuel
            (' ' :: (dumpsElems (w :: ws) ++ ']' :: rest))).map
          (fun p : List PyJson × List Char => (v :: p.1, p.2)) = _
        rw [parseElems_ws_cons fuel ' ' _ (by decide)]
        rw [ihE w ws rest (by
          have hx : jsonFuelElems (v :: w :: ws) =
            1 + jsonFuel v + jsonFuelElems (w :: ws) := rfl
          omega) hrest]
        rfl
    · intro k v l rest hf hrest
      have hfv : jsonFuel v ≤ fuel := by
        have hx : jsonFuelMembers ((k, v) :: l) =
          1 + jsonFuel v + jsonFuelMembers l := rfl
        have := jsonFuelMembers_pos l
        omega
      cases l with
      | nil =>
        rw [show dumpsMembers [(k, v)] ++ Char.ofNat 125 :: rest =
          '"' :: (k.data.flatMap escapeChar ++ '"' ::
            (':' :: ' ' :: (dumpsChars v ++ Char.ofNat 125 :: rest))) from by
          show (('"' :: (k.data.flatMap escapeChar ++ ['"'])) ++
            ':' :: ' ' :: dumpsChars v) ++ Char.ofNat 125 :: rest = _
          simp]
        rw [parseMembers_key fuel k.data _ (by
          have := flatMap_escape_length k.data
          simp only [List.length_append, List.length_cons]
          omega)]
        show (match parseValue fuel
            (' ' :: (dumpsChars v ++ Char.ofNat 125 :: rest)) with
          | none => none
          | some (v2, r4) =>
            match skipWs r4 with
            | ',' :: r5 => (parseMembers fuel r5).map
                (fun p : List (String × PyJson) × List Char =>
                  ((String.mk k.data, v2) :: p.1, p.2))
            | c :: r5 => if c = Char.ofNat 125 then
                some ([(String.mk k.data, v2)], r5)
              else none
            | [] => none) = _
        rw [parseValue_ws_cons fuel ' ' _ (by decide)]
        have hnn : nonNumTail (Char.ofNat 125 :: rest) :=
          nonNumTail_cons _ rest (by decide) (by decide) (by decide)
            (by decide)
        rw [ihV v (Char.ofNat 125 :: rest) hfv hnn]
        rfl
      | cons m ms =>
        obtain ⟨k2, v2⟩ := m
        rw [show dumpsMembers ((k, v) :: (k2, v2) :: ms) ++
            Char.ofNat 125 :: rest =
          '"' :: (k.data.flatMap escapeChar ++ '"' ::
            (':' :: ' ' :: (dumpsChars v ++ ',' :: ' ' ::
              (dumpsMembers ((k2, v2) :: ms) ++
                Char.ofNat 125 :: rest)))) from by
          show (('"' :: (k.data.flatMap escapeChar ++ ['"'])) ++
            ':' :: ' ' :: dumpsChars v ++ ',' :: ' ' ::
              dumpsMembers ((k2, v2) :: ms)) ++ Char.ofNat 125 :: rest = _
          simp]
        rw [parseMembers_key fuel k.data _ (by
          have := flatMap_escape_length k.data
          simp only [List.length_append, List.length_cons]
          omega)]
        show (match parseValue fuel
            (' ' :: (dumpsChars v ++ ',' :: ' ' ::
              (dumpsMembers ((k2, v2) :: ms) ++ Char.ofNat 125 :: rest))) with
          | none => none
          | some (v3, r4) =>
            match skipWs r4 with
            | ',' :: r5 => (parseMembers fuel r5).map
                (fun p : List (String × PyJson) × List Char =>
                  ((String.mk k.data, v3) :: p.1, p.2))
            | c :: r5 => if c = Char.ofNat 125 then
                some ([(String.mk k.data, v3)], r5)
              else none
            | [] => none) = _
        rw [parseValue_ws_cons fuel ' ' _ (by decide)]
        have hnn : nonNumTail (',' :: ' ' ::
            (dumpsMembers ((k2, v2) :: ms) ++ Char.ofNat 125 :: rest)) :=
          nonNumTail_cons ',' _ (by decide) (by decide) (by decide) (by decide)
        rw [ihV v _ hfv hnn]
        show (parseMembers fuel (' ' ::
            (dumpsMembers ((k2, v2) :: ms) ++ Char.ofNat 125 :: rest))).map
          (fun p : List (String × PyJson) × List Char =>
            ((String.mk k.data, v) :: p.1, p.2)) = _
        rw [parseMembers_ws_cons fuel ' ' _ (by decide)]
        rw [ihM k2 v2 ms rest (by
          have hx : jsonFuelMembers ((k, v) :: (k2, v2) :: ms) =
            1 + jsonFuel v + jsonFuelMembers ((k2, v2) :: ms) := rfl
          omega) hrest]
        rfl

/-- `json.loads(json.dumps(value)) == value` for every value of the
model (the `2 * length + 2` fuel of `pyJsonLoads` suffices by
`jsonFuel_le`). -/
theorem pyJsonLoads_dumps (v : PyJson) :
    pyJsonLoads (pyJsonDumps v) = some v := by
  unfold pyJsonLoads pyJsonDumps
  have h := (parse_dumps (2 * (dumpsChars v).length + 2)).1 v []
    (by have := jsonFuel_le v; omega)
    (by intro c hc; simp at hc)
  rw [List.append_nil] at h
  rw [show (String.mk (dumpsChars v)).data = dumpsChars v from rfl]
  rw [h]
  rfl

/-- `json.dumps` never returns the empty string, so the truthiness
checks of the row loaders always take the decoding branch. -/
theorem pyJsonDumps_ne_empty (v : PyJson) : pyJsonDumps v ≠ "" := by
  obtain ⟨c, t, he, _⟩ := dumpsChars_head v
  unfold pyJsonDumps
  rw [he]
  intro h
  have h2 := congrArg String.data h
  simp at h2

/-- db.py round trip: saving under a fresh AUTOINCREMENT id and
fetching that id decodes the three JSON columns to the `or`-coerced
arguments. -/
theorem getBlogPost_save (st : BlogStorageState) (topic markdown : String)
    (references images metadata : PyJson) (now : Nat)
    (hfresh : ∀ r ∈ st.posts, r.id ≠ st.nextId) :
    getBlogPost
        (saveBlogPost st topic markdown references images metadata now).2
        (saveBlogPost st topic markdown references images metadata now).1 =
      some { id := st.nextId, topic := topic, markdown := markdown
             references := some (pyOrDefault references (PyJson.arr []))
             images := some (pyOrDefault images (PyJson.arr []))
             metadata := some (pyOrDefault metadata (PyJson.obj [])) } := by
  simp only [saveBlogPost, getBlogPost]
  have hfind : ∀ posts : List PostRow, (∀ r ∈ posts, r.id ≠ st.nextId) →
      ∀ row : PostRow, row.id = st.nextId →
      (posts ++ [row]).find? (fun r => r.id = st.nextId) = some row := by
    intro posts
    induction posts with
    | nil =>
      intro _ row hrow
      simp [List.find?, hrow]
    | cons r rs ih =>
      intro hf row hrow
      have hr := hf r (by simp)
      simp only [List.cons_append, List.find?_cons]
      rw [show decide (r.id = st.nextId) = false from by simp [hr]]
      exact ih (fun x hx => hf x (by simp [hx])) row hrow
  rw [hfind st.posts hfresh _ rfl]
  simp only [Option.map_some']
  rw [if_pos (pyJsonDumps_ne_empty _), if_pos (pyJsonDumps_ne_empty _),
    if_pos (pyJsonDumps_ne_empty _)]
  rw [pyJsonLoads_dumps, pyJsonLoads_dumps, pyJsonLoads_dumps]

/-- database.py round trip: after `INSERT OR REPLACE`, fetching the
post id decodes `sources`/`images` back to the saved payloads (the
schema has no metadata column at all). -/
theorem dmGetBlogPost_save (rows : List DMRow) (bp : DMBlogPost) :
    dmGetBlogPost (dmSaveBlogPost rows bp) bp.id =
      some { id := bp.id, topic := bp.topic, content := bp.content
             word_count := bp.word_count
             sources := some bp.sources, images := some bp.images
             provider := bp.provider, model := bp.model
             created_at := bp.created_at, updated_at := bp.updated_at } := by
  simp only [dmSaveBlogPost, dmGetBlogPost]
  have hfind : ∀ rows : List DMRow,
      (if rows.any (fun r => r.id = bp.id) then
        rows.map (fun r => if r.id = bp.id then
          ({ id := bp.id, topic := bp.topic, content := bp.content
             word_count := bp.word_count
             sources := pyJsonDumps bp.sources
             images := pyJsonDumps bp.images
             provider := bp.provider, model := bp.model
             created_at := bp.created_at
             updated_at := bp.updated_at } : DMRow)
          else r)
      else rows ++
        [{ id := bp.id, topic := bp.topic, content := bp.content
           word_count := bp.word_count
           sources := pyJsonDumps bp.sources
           images := pyJsonDumps bp.images
           provider := bp.provider, model := bp.model
           created_at := bp.created_at
           updated_at := bp.updated_at }]).find?
        (fun r => r.id = bp.id) = some
        { id := bp.id, topic := bp.topic, content := bp.content
          word_count := bp.word_count
          sources := pyJsonDumps bp.sources
          images := pyJsonDumps bp.images
          provider := bp.provider, model := bp.model
          created_at := bp.created_at
          updated_at := bp.updated_at } := by
    intro rows
    induction rows with
    | nil =>
      rw [if_neg (by simp)]
      simp [List.find?]
    | cons r rs ih =>
      by_cases hr : r.id = bp.id
      · rw [if_pos (by simp [hr])]
        simp only [List.map_cons]
        rw [if_pos hr]
        rw [List.find?_cons_of_pos _ (by simp)]
      · by_cases hany : rs.any (fun r => r.id = bp.id)
        · rw [if_pos (by simp [hany])]
          simp only [List.map_cons]
          rw [if_neg hr]
          rw [List.find?_cons_of_neg _ (by simp [hr])]
          rw [if_pos hany] at ih
          exact ih
        · rw [if_neg (by
            simp only [List.any_cons, Bool.or_eq_true, decide_eq_true_eq]
            push_neg
            constructor
            · exact hr
            · intro hc
              exact absurd hc (by simpa using hany))]
          simp only [List.cons_append]
          rw [List.find?_cons_of_neg _ (by simp [hr])]
          rw [if_neg (by simpa using hany)] at ih
          exact ih
  rw [hfind rows]
  simp only [Option.map_some']
  rw [if_pos (pyJsonDumps_ne_empty _), if_pos (pyJsonDumps_ne_empty _)]
  rw [pyJsonLoads_dumps, pyJsonLoads_dumps]

/-- **C9** (corrected). Round trip through storage. In `BlogStorage`
(db.py), saving a post under a fresh AUTOINCREMENT id and retrieving
it by that id JSON-decodes the `source_refs`/`images`/`metadata`
columns to the `or`-coerced arguments `references or []`,
`images or []`, `metadata or {}` — equal to the passed structures
exactly when those are truthy. In `DatabaseManager` (database.py),
`sources` and `images` round-trip for every post; the table has no
metadata column, so metadata is not round-tripped at all (the loaded
record type has no such field). The original claim fails for falsy
JSON-serializable values such as `None`, see
`C9_counterexample_none_metadata`. -/
theorem C9_storage_roundtrip (st : BlogStorageState) (topic markdown : String)
    (references images metadata : PyJson) (now : Nat)
    (hfresh : ∀ r ∈ st.posts, r.id ≠ st.nextId) :
    (getBlogPost
        (saveBlogPost st topic markdown references images metadata now).2
        (saveBlogPost st topic markdown references images metadata now).1 =
      some { id := st.nextId, topic := topic, markdown := markdown
             references := some (pyOrDefault references (PyJson.arr []))
             images := some (pyOrDefault images (PyJson.arr []))
             metadata := some (pyOrDefault metadata (PyJson.obj [])) }) ∧
    (pyTruthy references = true → pyTruthy images = true →
      pyTruthy metadata = true →
      getBlogPost
          (saveBlogPost st topic markdown references images metadata now).2
          (saveBlogPost st topic markdown references images metadata now).1 =
        some { id := st.nextId, topic := topic, markdown := markdown
               references := some references, images := some images
               metadata := some metadata }) ∧
    (∀ (rows : List DMRow) (bp : DMBlogPost),
      dmGetBlogPost (dmSaveBlogPost rows bp) bp.id =
        some { id := bp.id, topic := bp.topic, content := bp.content
               word_count := bp.word_count
               sources := some bp.sources, images := some bp.images
               provider := bp.provider, model := bp.model
               created_at := bp.created_at
               updated_at := bp.updated_at }) := by
  refine ⟨getBlogPost_save st topic markdown references images metadata now
    hfresh, ?_, fun rows bp => dmGetBlogPost_save rows bp⟩
  intro hr hi hm
  rw [getBlogPost_save st topic markdown references images metadata now hfresh]
  unfold pyOrDefault
  rw [if_pos hr, if_pos hi, if_pos hm]

/-- Witness for C9: a concrete save of truthy sources, images and
metadata into an empty database round-trips to exactly the saved
structures. -/
theorem C9_storage_roundtrip_witness :
    (∀ r ∈ ([] : List PostRow), r.id ≠ (1 : Nat)) ∧
    pyTruthy (PyJson.arr [PyJson.str "r"]) = true ∧
    pyTruthy (PyJson.arr [PyJson.int 7]) = true ∧
    pyTruthy (PyJson.obj [("a", PyJson.int 2)]) = true ∧
    getBlogPost
        (saveBlogPost ⟨[], [], 1⟩ "t" "m" (PyJson.arr [PyJson.str "r"])
          (PyJson.arr [PyJson.int 7]) (PyJson.obj [("a", PyJson.int 2)]) 5).2
        (saveBlogPost ⟨[], [], 1⟩ "t" "m" (PyJson.arr [PyJson.str "r"])
          (PyJson.arr [PyJson.int 7]) (PyJson.obj [("a", PyJson.int 2)]) 5).1 =
      some { id := 1, topic := "t", markdown := "m"
             references := some (PyJson.arr [PyJson.str "r"])
             images := some (PyJson.arr [PyJson.int 7])
             metadata := some (PyJson.obj [("a", PyJson.int 2)]) } :=
  ⟨by simp, rfl, rfl, rfl,
   (C9_storage_roundtrip ⟨[], [], 1⟩ "t" "m" (PyJson.arr [PyJson.str "r"])
     (PyJson.arr [PyJson.int 7]) (PyJson.obj [("a", PyJson.int 2)]) 5
     (by simp)).2.1 rfl rfl rfl⟩

/-- **C9 counterexample.** `None` is JSON-serializable
(`json.dumps(None) == "null"`), but saving
`references=None, images=None, metadata=None` through
`BlogStorage.save_blog_post` stores `"[]"`, `"[]"`, `"{}"` (the
`references or []` / `images or []` / `metadata or {}` coercions), so
the retrieved decoded structures are `[]`, `[]`, `{}`, not the `None`
that was passed to save. -/
theorem C9_counterexample_none_metadata :
    (getBlogPost
        (saveBlogPost ⟨[], [], 1⟩ "t" "m" PyJson.null PyJson.null
          PyJson.null 5).2
        (saveBlogPost ⟨[], [], 1⟩ "t" "m" PyJson.null PyJson.null
          PyJson.null 5).1).map
      (fun p => (p.references, p.images, p.metadata)) =
      some (some (PyJson.arr []), some (PyJson.arr []),
        some (PyJson.obj [])) ∧
    PyJson.obj [] ≠ PyJson.null :=
  ⟨rfl, fun h => PyJson.noConfusion h⟩

end BlogWriter
